import Mathlib

/-!
Verification of the social-engagement core of a book-recommendation
application (polymorphic Like/Comment/Follow/Share collections with
denormalized counters on target documents).

The definitions below are a shallow embedding of the JavaScript source:
  * the Like model (`toggleLike`, unique index on (userId, targetType,
    targetId), post-save / post-deleteOne hooks calling
    `updateTargetLikeCount`),
  * the Comment model (schema defaults, pre-save trim + keyword
    moderation, `addReply`, post-deleteOne hook with parent replyCount
    clamp and `updateTargetCommentCount`),
  * the Share model (`createShare`, `updateTargetShareCount`,
    `getTrendingShares`),
  * the Follow model (`toggleFollow`, self-follow guard,
    `getSuggestedFollows`),
  * the Express social routes (validation, ownership checks, response
    shapes).

Documents are Lean structures; a Mongo collection is a `List` of
documents; the "owning" target tables (BookRecommendation / Review /
Book) are total maps from document id to their denormalized counters
(`findByIdAndUpdate` on an id updates the map at that point).  Fields
that no verified claim observes are omitted from the document
structures: `populate` virtuals, the duplicated polymorphic reference
fields (`recommendationId`/`commentId`/`reviewId`/`bookId`, which the
source always sets to a copy of `targetId`), `sharedWithUsers`,
`moderationReason`, `reportCount`, `notificationsEnabled`, and
timestamps other than `Share.createdAt` (which `getTrendingShares`
reads).  JavaScript strings are modelled as `List Char`; ObjectIds as
`Nat`, with explicit freshness side conditions where Mongo would
generate a globally fresh id.
-/

namespace SocialCore

/-- `targetType` discriminator used by the polymorphic collections.
Likes accept recommendation/comment/review, comments accept
recommendation/review, shares accept recommendation/review/book; the
route handlers enforce those subsets. -/
inductive TargetType where
  | recommendation
  | comment
  | review
  | book
deriving DecidableEq, Repr

/-- A document of the Like collection (`likeSchema`). -/
structure LikeDoc where
  userId : Nat
  targetType : TargetType
  targetId : Nat
deriving DecidableEq, Repr

/-- `shareType` enumeration of the Share schema. -/
inductive ShareType where
  | internal
  | external
  | social
deriving DecidableEq, Repr

/-- A document of the Comment collection (`commentSchema`).
`replyCount` is carried as an integer so that the schema's `min: 0`
bound is a provable invariant rather than a typing assumption. -/
structure CommentDoc where
  id : Nat
  userId : Nat
  targetType : TargetType
  targetId : Nat
  text : List Char
  parentCommentId : Option Nat
  replyCount : Int
  likeCount : Nat
  isPublic : Bool
  isModerated : Bool
deriving DecidableEq, Repr

/-- A document of the Share collection (`shareSchema`). -/
structure ShareDoc where
  userId : Nat
  targetType : TargetType
  targetId : Nat
  shareType : ShareType
  platform : Option String
  message : Option String
  clickCount : Nat
  isPublic : Bool
  createdAt : Int
deriving DecidableEq, Repr

/-- The denormalized counter fields cached on a target document. -/
structure Counters where
  likeCount : Nat
  commentCount : Nat
  shareCount : Nat
deriving DecidableEq, Repr

/-- The store: the three engagement collections plus the counter fields
of the target tables (BookRecommendation, Review, Book). -/
structure St where
  likes : List LikeDoc
  comments : List CommentDoc
  shares : List ShareDoc
  recs : Nat → Counters
  reviews : Nat → Counters
  books : Nat → Counters

/-- The initial store: all collections empty, every counter zero (the
schema defaults for `likeCount`/`commentCount`/`shareCount`). -/
def St.init : St where
  likes := []
  comments := []
  shares := []
  recs := fun _ => ⟨0, 0, 0⟩
  reviews := fun _ => ⟨0, 0, 0⟩
  books := fun _ => ⟨0, 0, 0⟩

/-- Pointwise update of a target table at one document id
(`Model.findByIdAndUpdate(targetId, ...)`). -/
def setTable (f : Nat → Counters) (i : Nat) (c : Counters) : Nat → Counters :=
  fun j => if j = i then c else f j

/-- Does a like document match the unique-index key
(userId, targetType, targetId)? -/
def likeKeyMatch (u : Nat) (tt : TargetType) (tid : Nat) (l : LikeDoc) : Bool :=
  decide (l.userId = u ∧ l.targetType = tt ∧ l.targetId = tid)

/-- `Like.findOne({userId, targetType, targetId})` succeeds. -/
def likeExists (s : St) (u : Nat) (tt : TargetType) (tid : Nat) : Bool :=
  s.likes.any (likeKeyMatch u tt tid)

/-- `Like.countDocuments({targetType, targetId})`: the live number of
like documents referencing a target. -/
def countLikes (s : St) (tt : TargetType) (tid : Nat) : Nat :=
  (s.likes.filter fun l => decide (l.targetType = tt ∧ l.targetId = tid)).length

/-- `updateTargetLikeCount`: recompute the like count of the target by a
live count query and write it onto the target document.  The switch on
`targetType` mirrors the source (recommendation / comment / review;
`default: return`). -/
def updateTargetLikeCount (s : St) (tt : TargetType) (tid : Nat) : St :=
  let n := countLikes s tt tid
  match tt with
  | .recommendation => { s with recs := setTable s.recs tid { s.recs tid with likeCount := n } }
  | .comment =>
      { s with comments := s.comments.map fun c =>
          if c.id = tid then { c with likeCount := n } else c }
  | .review => { s with reviews := setTable s.reviews tid { s.reviews tid with likeCount := n } }
  | .book => s

/-- `likeSchema.statics.toggleLike`, with the race between the
`findOne` existence check and the `save` made explicit: the existence
check reads `sRead` while the delete / insert applies to `sWrite` (a
concurrent request may have committed in between).  The sequential call
is the diagonal `sRead = sWrite` (`toggleLike` below).  An insert that
violates the unique index on (userId, targetType, targetId) is the
duplicate-key error `Except.error ()`; the source has no handler for
it, so it propagates out of `toggleLike`.  Both the delete and the
insert run the post hook `updateTargetLikeCount`. -/
def toggleLikeRaced (sRead sWrite : St) (u : Nat) (tt : TargetType) (tid : Nat) :
    Except Unit (St × Bool) :=
  if likeExists sRead u tt tid then
    let s' := { sWrite with likes := sWrite.likes.eraseP (likeKeyMatch u tt tid) }
    .ok (updateTargetLikeCount s' tt tid, false)
  else
    if likeExists sWrite u tt tid then
      .error ()
    else
      let s' := { sWrite with likes := ⟨u, tt, tid⟩ :: sWrite.likes }
      .ok (updateTargetLikeCount s' tt tid, true)

/-- Sequential `toggleLike` (no interleaved writer). -/
def toggleLike (s : St) (u : Nat) (tt : TargetType) (tid : Nat) :
    Except Unit (St × Bool) :=
  toggleLikeRaced s s u tt tid

/-- Outcome of `POST /social/like`. -/
inductive LikeRouteOut where
  | badRequest
  | serverError
  | ok (liked : Bool) (likeCount : Nat)
deriving DecidableEq, Repr

/-- The `POST /social/like` handler: target-type whitelist check, then
`Like.toggleLike` followed by `Like.getLikeCount`; any error thrown by
the toggle is caught and answered as a 500 server error. -/
def routePostLikeRaced (sRead sWrite : St) (u : Nat) (tt : TargetType) (tid : Nat) :
    LikeRouteOut × St :=
  if tt = .recommendation ∨ tt = .comment ∨ tt = .review then
    match toggleLikeRaced sRead sWrite u tt tid with
    | .error _ => (.serverError, sWrite)
    | .ok (s', liked) => (.ok liked (countLikes s' tt tid), s')
  else
    (.badRequest, sWrite)

/-- Sequential `POST /social/like`. -/
def routePostLike (s : St) (u : Nat) (tt : TargetType) (tid : Nat) :
    LikeRouteOut × St :=
  routePostLikeRaced s s u tt tid

/-! ## Comment subsystem (`commentSchema`, social comment routes) -/

/-- ASCII whitespace, as stripped by JavaScript `String.prototype.trim`
on the texts this system handles. -/
def isWhitespaceChar (c : Char) : Bool :=
  decide (c = ' ' ∨ c = '\t' ∨ c = '\n' ∨ c = '\r')

/-- `text.trim()`. -/
def trimChars (l : List Char) : List Char :=
  ((l.dropWhile isWhitespaceChar).reverse.dropWhile isWhitespaceChar).reverse

/-- Is `w` a prefix of the second list? -/
def isPrefixOfB (w : List Char) (l : List Char) : Bool :=
  match w, l with
  | [], _ => true
  | _ :: _, [] => false
  | a :: as, b :: bs => a == b && isPrefixOfB as bs

/-- Does `w` occur as a contiguous substring (`String.prototype.includes`)? -/
def occursIn (w : List Char) : List Char → Bool
  | [] => isPrefixOfB w []
  | c :: rest => isPrefixOfB w (c :: rest) || occursIn w rest

/-- The hard-coded denylist of the comment pre-save content filter. -/
def inappropriateWords : List (List Char) :=
  ["spam".data, "fake".data, "scam".data]

/-- `lowerText.includes(word)` for some denylist word. -/
def containsBadWord (text : List Char) : Bool :=
  let lower := text.map Char.toLower
  inappropriateWords.any fun w => occursIn w lower

/-- The comment pre-save middleware: trim the text and flag the comment
as moderated when the lowercased text contains a denylist word (the
flag is only ever set, never cleared). -/
def commentPreSave (c : CommentDoc) : CommentDoc :=
  let t := trimChars c.text
  { c with text := t, isModerated := c.isModerated || containsBadWord t }

/-- The live count used by `updateTargetCommentCount`:
`Comment.countDocuments({targetType, targetId, isPublic: true,
isModerated: false})`. -/
def countPubComments (s : St) (tt : TargetType) (tid : Nat) : Nat :=
  (s.comments.filter fun c =>
    decide (c.targetType = tt ∧ c.targetId = tid) && c.isPublic && !c.isModerated).length

/-- `updateTargetCommentCount`: recompute and write the target's
`commentCount` (switch on recommendation / review; `default: return`). -/
def updateTargetCommentCount (s : St) (tt : TargetType) (tid : Nat) : St :=
  let n := countPubComments s tt tid
  match tt with
  | .recommendation =>
      { s with recs := setTable s.recs tid { s.recs tid with commentCount := n } }
  | .review =>
      { s with reviews := setTable s.reviews tid { s.reviews tid with commentCount := n } }
  | _ => s

/-- `comment.save()` for a new document: pre-save middleware, insert,
then the post-save hook `updateTargetCommentCount`. -/
def saveNewComment (s : St) (c : CommentDoc) : St :=
  let c' := commentPreSave c
  updateTargetCommentCount ({ s with comments := c' :: s.comments }) c'.targetType c'.targetId

/-- Outcome of `POST /social/comment`. -/
inductive CommentRouteOut where
  | badRequest
  | created (c : CommentDoc)
deriving DecidableEq, Repr

/-- The `POST /social/comment` handler: `validateComment` (trimmed text
length between 1 and 1000), target-type whitelist, then
`new Comment(commentData)` (with `parentCommentId` copied from the
request body when given) and `comment.save()`.  `newId` is the ObjectId
Mongo generates for the insert. -/
def routePostComment (s : St) (newId u : Nat) (tt : TargetType) (tid : Nat)
    (text : List Char) (parent? : Option Nat) : CommentRouteOut × St :=
  let t := trimChars text
  if 1 ≤ t.length ∧ t.length ≤ 1000 then
    if tt = .recommendation ∨ tt = .review then
      let c : CommentDoc :=
        { id := newId, userId := u, targetType := tt, targetId := tid, text := t
          parentCommentId := parent?, replyCount := 0, likeCount := 0
          isPublic := true, isModerated := false }
      (.created (commentPreSave c), saveNewComment s c)
    else (.badRequest, s)
  else (.badRequest, s)

/-- `commentSchema.methods.addReply`, invoked on the comment with id
`pid`: build a reply copying the parent's target, save it, then
increment the parent's `replyCount` and save the parent (whose own
post-save hook recomputes the target's comment count again). -/
def execAddReply (s : St) (newId pid u : Nat) (text : List Char) : St :=
  match s.comments.find? fun c => c.id == pid with
  | none => s
  | some p =>
      let reply : CommentDoc :=
        { id := newId, userId := u, targetType := p.targetType, targetId := p.targetId
          text := text, parentCommentId := some p.id, replyCount := 0, likeCount := 0
          isPublic := true, isModerated := false }
      let s1 := saveNewComment s reply
      let s2 := { s1 with comments := s1.comments.map fun c =>
        if c.id = p.id then commentPreSave ({ c with replyCount := c.replyCount + 1 }) else c }
      updateTargetCommentCount s2 p.targetType p.targetId

/-- Outcome of `DELETE /social/comments/:commentId`. -/
inductive DeleteOut where
  | notFound
  | forbidden
  | ok
deriving DecidableEq, Repr

/-- The `DELETE /social/comments/:commentId` handler: 404 when the
comment does not resolve, 403 unless the requester owns it, otherwise
`comment.deleteOne()` whose post hook recomputes the target's comment
count and, for a reply, clamps the parent's `replyCount` down by one
(`Math.max(0, replyCount - 1)`) and saves the parent (re-running the
parent's own save hooks). -/
def execDeleteComment (s : St) (cid requester : Nat) : DeleteOut × St :=
  match s.comments.find? fun c => c.id == cid with
  | none => (.notFound, s)
  | some c =>
      if c.userId = requester then
        let s1 := { s with comments := s.comments.eraseP fun c' => c'.id == cid }
        let s2 := updateTargetCommentCount s1 c.targetType c.targetId
        let s3 :=
          match c.parentCommentId with
          | none => s2
          | some pid =>
              match s2.comments.find? fun c' => c'.id == pid with
              | none => s2
              | some p =>
                  let dec : CommentDoc → CommentDoc := fun c' =>
                    if c'.id = pid then
                      commentPreSave ({ c' with replyCount := max 0 (c'.replyCount - 1) })
                    else c'
                  let s' := { s2 with comments := s2.comments.map dec }
                  updateTargetCommentCount s' p.targetType p.targetId
        (.ok, s3)
      else (.forbidden, s)

/-! ## Share subsystem (`shareSchema`, social share routes) -/

/-- `Share.countDocuments({targetType, targetId})`. -/
def countShares (s : St) (tt : TargetType) (tid : Nat) : Nat :=
  (s.shares.filter fun d => decide (d.targetType = tt ∧ d.targetId = tid)).length

/-- `updateTargetShareCount`: recompute and write the target's
`shareCount` (switch on recommendation / review / book;
`default: return`). -/
def updateTargetShareCount (s : St) (tt : TargetType) (tid : Nat) : St :=
  let n := countShares s tt tid
  match tt with
  | .recommendation =>
      { s with recs := setTable s.recs tid { s.recs tid with shareCount := n } }
  | .review =>
      { s with reviews := setTable s.reviews tid { s.reviews tid with shareCount := n } }
  | .book =>
      { s with books := setTable s.books tid { s.books tid with shareCount := n } }
  | _ => s

/-- `Share.createShare` followed by the post-save hook. -/
def execCreateShare (s : St) (d : ShareDoc) : St :=
  updateTargetShareCount ({ s with shares := d :: s.shares }) d.targetType d.targetId

/-- The platform enumeration shared by the route validator
(`validateShare`) and the Share schema. -/
def platformEnum : List String :=
  ["twitter", "facebook", "linkedin", "email", "copy_link", "internal_feed"]

/-- The `validateShare` middleware of the share route: `shareType` (a
typed argument here, so its `isIn` check always passes), `platform`
optional but constrained to `platformEnum` when present, `message`
optional with trimmed length at most 500.  No rule requires `platform`
to be present, for any `shareType`. -/
def validateShareReq (platform? : Option String) (message? : Option String) : Bool :=
  (match platform? with
   | none => true
   | some p => decide (p ∈ platformEnum)) &&
  (match message? with
   | none => true
   | some m => decide (m.trim.length ≤ 500))

/-- Outcome of `POST /social/share`. -/
inductive ShareRouteOut where
  | badRequest
  | created (d : ShareDoc)
deriving DecidableEq, Repr

/-- The `POST /social/share` handler: `validateShare`, target-type
whitelist, then `Share.createShare` with `shareType` defaulted to
`internal` and `clickCount`/`isPublic` at their schema defaults.
`now` is the creation timestamp Mongo records. -/
def routePostShare (s : St) (u : Nat) (tt : TargetType) (tid : Nat)
    (shareType? : Option ShareType) (platform? message? : Option String)
    (now : Int) : ShareRouteOut × St :=
  if validateShareReq platform? message? then
    if tt = .recommendation ∨ tt = .review ∨ tt = .book then
      let d : ShareDoc :=
        { userId := u, targetType := tt, targetId := tid
          shareType := shareType?.getD .internal, platform := platform?
          message := message?, clickCount := 0, isPublic := true, createdAt := now }
      (.created d, execCreateShare s d)
    else (.badRequest, s)
  else (.badRequest, s)

/-- The denormalized `likeCount` currently cached on a target document
(the table entry for recommendation / review / book targets, the
comment document's own `likeCount` field for comment targets; 0 when no
such comment exists). -/
def cachedLikeCount (s : St) (tt : TargetType) (tid : Nat) : Nat :=
  match tt with
  | .recommendation => (s.recs tid).likeCount
  | .review => (s.reviews tid).likeCount
  | .book => (s.books tid).likeCount
  | .comment => ((s.comments.find? fun c => c.id == tid).map (·.likeCount)).getD 0

/-- The denormalized `commentCount` currently cached on a target
document (comments only target recommendations and reviews). -/
def cachedCommentCount (s : St) (tt : TargetType) (tid : Nat) : Nat :=
  match tt with
  | .recommendation => (s.recs tid).commentCount
  | .review => (s.reviews tid).commentCount
  | _ => 0

/-! ## Operation sequences over the engagement store

`Step` is one completed client operation (route handler or model
method, post-write hooks included); `Reachable` is the set of stores an
operation sequence can produce from the empty initial store.  Document
creation carries an explicit freshness side condition standing for
Mongo's globally unique ObjectId generation. -/

/-- `newId` is a fresh ObjectId: no stored comment has it and no like
references it as a comment target. -/
def freshCommentId (s : St) (i : Nat) : Prop :=
  (∀ c ∈ s.comments, c.id ≠ i) ∧
  ∀ l ∈ s.likes, ¬(l.targetType = .comment ∧ l.targetId = i)

/-- One completed operation on the engagement store. -/
inductive Step : St → St → Prop where
  | like (s : St) (u : Nat) (tt : TargetType) (tid : Nat) :
      Step s (routePostLike s u tt tid).2
  | comment (s : St) (newId u : Nat) (tt : TargetType) (tid : Nat) (text : List Char)
      (parent? : Option Nat) (hfresh : freshCommentId s newId) :
      Step s (routePostComment s newId u tt tid text parent?).2
  | reply (s : St) (newId pid u : Nat) (text : List Char)
      (hfresh : freshCommentId s newId) :
      Step s (execAddReply s newId pid u text)
  | deleteComment (s : St) (cid req : Nat) :
      Step s (execDeleteComment s cid req).2
  | share (s : St) (u : Nat) (tt : TargetType) (tid : Nat) (st? : Option ShareType)
      (p? m? : Option String) (now : Int) :
      Step s (routePostShare s u tt tid st? p? m? now).2

/-- Stores produced by some operation sequence from the empty store. -/
inductive Reachable : St → Prop where
  | init : Reachable St.init
  | step {s s' : St} : Reachable s → Step s s' → Reachable s'

/-- The store invariant every completed operation maintains: each
cached counter equals the live count its recompute query returns, and
the bookkeeping facts (unique fresh ids, save-pipeline-normalized
texts, schema-valid target types, nonnegative reply counters) that the
save pipeline guarantees. -/
structure Inv (s : St) : Prop where
  recsOk : ∀ i, s.recs i = ⟨countLikes s .recommendation i,
    countPubComments s .recommendation i, countShares s .recommendation i⟩
  reviewsOk : ∀ i, s.reviews i = ⟨countLikes s .review i,
    countPubComments s .review i, countShares s .review i⟩
  booksOk : ∀ i, s.books i = ⟨countLikes s .book i,
    countPubComments s .book i, countShares s .book i⟩
  commentsLikeOk : ∀ c ∈ s.comments, c.likeCount = countLikes s .comment c.id
  idsNodup : (s.comments.map (·.id)).Nodup
  normOk : ∀ c ∈ s.comments, c.text = trimChars c.text ∧
    (containsBadWord c.text = true → c.isModerated = true)
  replyOk : ∀ c ∈ s.comments, 0 ≤ c.replyCount
  commentsTTOk : ∀ c ∈ s.comments,
    c.targetType = .recommendation ∨ c.targetType = .review
  likesTTOk : ∀ l ∈ s.likes, l.targetType ≠ .book

/-! ## Follow subsystem (`followSchema`) -/

/-- `status` enumeration of the Follow schema. -/
inductive FollowStatus where
  | pending
  | accepted
  | blocked
deriving DecidableEq, Repr

/-- A document of the Follow collection.  The user documents' cached
`followersCount`/`followingCount` are outside the claims under
verification, so only the collection itself is modelled. -/
structure FollowDoc where
  followerId : Nat
  followingId : Nat
  status : FollowStatus
deriving DecidableEq, Repr

/-- Key match for the unique index on (followerId, followingId). -/
def followKeyMatch (a b : Nat) (f : FollowDoc) : Bool :=
  decide (f.followerId = a ∧ f.followingId = b)

/-- `Follow.findOne({followerId, followingId})` succeeds. -/
def followExists (fs : List FollowDoc) (a b : Nat) : Bool :=
  fs.any (followKeyMatch a b)

/-- `follow.save()` for a new document: the pre-save hook rejects a
self-follow, the unique index rejects a duplicate key; otherwise the
document is inserted. -/
def saveNewFollow (fs : List FollowDoc) (f : FollowDoc) : Except Unit (List FollowDoc) :=
  if f.followerId = f.followingId then .error ()
  else if followExists fs f.followerId f.followingId then .error ()
  else .ok (f :: fs)

/-- `followSchema.statics.toggleFollow`: throw on a self-follow, else
delete the existing follow or insert a new one with status accepted. -/
def toggleFollow (fs : List FollowDoc) (a b : Nat) :
    Except Unit (List FollowDoc × Bool) :=
  if a = b then .error ()
  else if followExists fs a b then
    .ok (fs.eraseP (followKeyMatch a b), false)
  else
    (saveNewFollow fs ⟨a, b, .accepted⟩).map fun fs' => (fs', true)

/-- One `toggleFollow` request as the route observes the collection: a
thrown error leaves the collection unchanged. -/
def runToggleFollow (fs : List FollowDoc) (a b : Nat) : List FollowDoc :=
  match toggleFollow fs a b with
  | .error _ => fs
  | .ok (fs', _) => fs'

/-- A sequence of `toggleFollow` requests. -/
def runFollowOps (fs : List FollowDoc) : List (Nat × Nat) → List FollowDoc
  | [] => fs
  | (a, b) :: rest => runFollowOps (runToggleFollow fs a b) rest

/-! ## Generic descending sort used by the aggregation pipelines
(`$sort` on a numeric field, descending). -/

/-- Insert into a list sorted descending on `key`. -/
def insertDescBy (key : α → Nat) (a : α) : List α → List α
  | [] => [a]
  | b :: l => if key b ≤ key a then a :: b :: l else b :: insertDescBy key a l

/-- Sort descending on `key`. -/
def sortDescBy (key : α → Nat) : List α → List α
  | [] => []
  | a :: l => insertDescBy key a (sortDescBy key l)

/-! ## Follow suggestions (`getSuggestedFollows` aggregation) -/

/-- `$group: {_id: followingId, mutualFollowersCount: {$sum: 1}}` over a
list of followed-user ids. -/
def bumpKey (k : Nat) : List (Nat × Nat) → List (Nat × Nat)
  | [] => [(k, 1)]
  | (k', n) :: rest => if k' = k then (k', n + 1) :: rest else (k', n) :: bumpKey k rest

/-- Group a list of ids, counting occurrences of each distinct id. -/
def countByKey : List Nat → List (Nat × Nat)
  | [] => []
  | k :: rest => bumpKey k (countByKey rest)

/-- `followSchema.statics.getSuggestedFollows`: collect the accepted
followees of `userId`, append `userId` itself to the exclusion list,
match accepted follows whose follower is in the list and whose followee
is not, group by followee with a mutual-follower count, sort by that
count descending and take `limit`.  (The trailing `$lookup`/`$project`
stages only attach user profile fields to each id and are omitted.)
Each result is (suggested user id, mutualFollowersCount). -/
def getSuggestedFollows (fs : List FollowDoc) (userId : Nat) (limit : Nat) :
    List (Nat × Nat) :=
  let followingIds :=
    ((fs.filter fun f => decide (f.followerId = userId ∧ f.status = .accepted)).map
      (·.followingId)) ++ [userId]
  let matched := fs.filter fun f =>
    decide (f.followerId ∈ followingIds ∧ f.followingId ∉ followingIds ∧
      f.status = .accepted)
  (sortDescBy Prod.snd (countByKey (matched.map (·.followingId)))).take limit

/-! ## Trending shares (`getTrendingShares` aggregation) -/

/-- One `$group` bucket of the trending aggregation: a distinct
(targetType, targetId) with its share count and summed clicks. -/
structure TrendGroup where
  targetType : TargetType
  targetId : Nat
  shareCount : Nat
  totalClicks : Nat
deriving DecidableEq, Repr

/-- The grouping key of a share document. -/
def shareKey (d : ShareDoc) : TargetType × Nat := (d.targetType, d.targetId)

/-- The grouping key of a bucket. -/
def groupKey (g : TrendGroup) : TargetType × Nat := (g.targetType, g.targetId)

/-- Fold one share document into the buckets. -/
def bumpShare (d : ShareDoc) : List TrendGroup → List TrendGroup
  | [] => [⟨d.targetType, d.targetId, 1, d.clickCount⟩]
  | g :: gs =>
      if groupKey g = shareKey d then
        ⟨g.targetType, g.targetId, g.shareCount + 1, g.totalClicks + d.clickCount⟩ :: gs
      else g :: bumpShare d gs

/-- `$group: {_id: {targetType, targetId}, shareCount: {$sum: 1},
totalClicks: {$sum: clickCount}}`. -/
def groupShares : List ShareDoc → List TrendGroup
  | [] => []
  | d :: rest => bumpShare d (groupShares rest)

/-- `$addFields: trendingScore = 2 * shareCount + totalClicks`. -/
def trendingScore (g : TrendGroup) : Nat :=
  2 * g.shareCount + g.totalClicks

/-- The `$match` stage of `getTrendingShares`: created on or after the
window start `now - timeframe` (times measured in days), public, and of
the requested target type when one is given. -/
def trendingMatch (now timeframe : Int) (targetType? : Option TargetType)
    (d : ShareDoc) : Bool :=
  decide (now - timeframe ≤ d.createdAt) && d.isPublic &&
    (match targetType? with
     | none => true
     | some t => decide (d.targetType = t))

/-- `shareSchema.statics.getTrendingShares`: match the window, group by
target, score, sort by score descending, take `limit`.  (The trailing
`$lookup` stages only attach the target documents and are omitted.) -/
def getTrendingShares (shares : List ShareDoc) (now timeframe : Int)
    (limit : Nat) (targetType? : Option TargetType) : List TrendGroup :=
  (sortDescBy trendingScore
    (groupShares (shares.filter (trendingMatch now timeframe targetType?)))).take limit

/-! ## Generic lemmas about the sorting and grouping helpers -/

theorem mem_insertDescBy {key : α → Nat} {a b : α} :
    ∀ {l : List α}, b ∈ insertDescBy key a l ↔ b = a ∨ b ∈ l
  | [] => by simp [insertDescBy]
  | c :: l => by
    simp only [insertDescBy]
    split
    · simp [List.mem_cons]
    · simp only [List.mem_cons, mem_insertDescBy (l := l)]
      tauto

theorem sorted_insertDescBy {key : α → Nat} {a : α} :
    ∀ {l : List α}, l.Pairwise (fun x y => key y ≤ key x) →
      (insertDescBy key a l).Pairwise (fun x y => key y ≤ key x)
  | [], _ => by simp [insertDescBy]
  | c :: l, h => by
    rcases List.pairwise_cons.mp h with ⟨hc, hl⟩
    simp only [insertDescBy]
    split
    · refine List.pairwise_cons.mpr ⟨?_, h⟩
      intro y hy
      rcases List.mem_cons.mp hy with rfl | hy
      · assumption
      · exact le_trans (hc y hy) (by assumption)
    · refine List.pairwise_cons.mpr ⟨?_, sorted_insertDescBy hl⟩
      intro y hy
      rcases mem_insertDescBy.mp hy with rfl | hy
      · omega
      · exact hc y hy

theorem mem_sortDescBy {key : α → Nat} {b : α} :
    ∀ {l : List α}, b ∈ sortDescBy key l ↔ b ∈ l
  | [] => by simp [sortDescBy]
  | a :: l => by
    simp only [sortDescBy, mem_insertDescBy, List.mem_cons,
      mem_sortDescBy (l := l)]

theorem sorted_sortDescBy {key : α → Nat} :
    ∀ (l : List α), (sortDescBy key l).Pairwise (fun x y => key y ≤ key x)
  | [] => by simp [sortDescBy]
  | a :: l => sorted_insertDescBy (sorted_sortDescBy l)

theorem length_insertDescBy {key : α → Nat} {a : α} :
    ∀ {l : List α}, (insertDescBy key a l).length = l.length + 1
  | [] => rfl
  | c :: l => by
    simp only [insertDescBy]
    split
    · rfl
    · simp [length_insertDescBy (l := l)]

theorem length_sortDescBy {key : α → Nat} :
    ∀ (l : List α), (sortDescBy key l).length = l.length
  | [] => rfl
  | a :: l => by simp [sortDescBy, length_insertDescBy, length_sortDescBy l]

theorem fst_mem_bumpKey {k : Nat} {p : Nat × Nat} :
    ∀ {l : List (Nat × Nat)}, p ∈ bumpKey k l → p.1 = k ∨ p.1 ∈ l.map Prod.fst
  | [] => by
    simp only [bumpKey, List.mem_singleton]
    rintro rfl
    left
    rfl
  | (k', n) :: rest => by
    simp only [bumpKey]
    split
    · intro h
      rcases List.mem_cons.mp h with rfl | h
      · right; simp
      · right
        simp only [List.map_cons, List.mem_cons]
        right
        exact List.mem_map.mpr ⟨p, h, rfl⟩
    · intro h
      rcases List.mem_cons.mp h with rfl | h
      · right; simp
      · rcases fst_mem_bumpKey h with h | h
        · left; exact h
        · right; simp only [List.map_cons, List.mem_cons]; right; exact h

theorem fst_mem_countByKey {p : Nat × Nat} :
    ∀ {l : List Nat}, p ∈ countByKey l → p.1 ∈ l
  | [] => by simp [countByKey]
  | k :: rest => by
    intro h
    rcases fst_mem_bumpKey (l := countByKey rest) h with h | h
    · simp [h]
    · rcases List.mem_map.mp h with ⟨q, hq, hfst⟩
      exact List.mem_cons.mpr (Or.inr (hfst ▸ fst_mem_countByKey hq))

/-! ## Claim theorems -/

/-- Helper: one `toggleFollow` request never introduces a self-follow. -/
theorem noSelf_runToggleFollow {fs : List FollowDoc} {a b : Nat}
    (h : ∀ f ∈ fs, f.followerId ≠ f.followingId) :
    ∀ f ∈ runToggleFollow fs a b, f.followerId ≠ f.followingId := by
  by_cases hab : a = b
  · simpa [runToggleFollow, toggleFollow, hab] using h
  · by_cases hex : followExists fs a b
    · have htf : toggleFollow fs a b = .ok (fs.eraseP (followKeyMatch a b), false) := by
        simp [toggleFollow, hab, hex]
      simp only [runToggleFollow, htf]
      intro f hf
      exact h f ((List.eraseP_sublist fs).subset hf)
    · have htf : toggleFollow fs a b = .ok (⟨a, b, .accepted⟩ :: fs, true) := by
        simp [toggleFollow, hab, hex, saveNewFollow, Except.map]
      simp only [runToggleFollow, htf]
      intro f hf
      rcases List.mem_cons.mp hf with rfl | hf
      · exact hab
      · exact h f hf

/-- C7: `toggleFollow(u, u)` always fails with an invalid-argument error
and changes nothing, and no sequence of toggleFollow requests ever
persists a Follow document with `followerId = followingId`. -/
theorem toggleFollow_never_self (u : Nat) (fs : List FollowDoc) :
    toggleFollow fs u u = .error () ∧
    runToggleFollow fs u u = fs ∧
    ∀ (ops : List (Nat × Nat)) (fs0 : List FollowDoc),
      (∀ f ∈ fs0, f.followerId ≠ f.followingId) →
      ∀ f ∈ runFollowOps fs0 ops, f.followerId ≠ f.followingId := by
  refine ⟨by simp [toggleFollow], by simp [runToggleFollow, toggleFollow], ?_⟩
  intro ops
  induction ops with
  | nil => intro fs0 h; simpa [runFollowOps] using h
  | cons op rest ih =>
      intro fs0 h
      obtain ⟨a, b⟩ := op
      simpa [runFollowOps] using ih _ (noSelf_runToggleFollow h)

/-- Witness for C7 at concrete inputs: a self-toggle fails, and a run
containing a self-follow attempt leaves no self-edge. -/
theorem toggleFollow_never_self_witness :
    toggleFollow [] 7 7 = .error () ∧
    ∀ f ∈ runFollowOps [⟨1, 2, .accepted⟩] [(1, 2), (2, 1), (3, 3)],
      f.followerId ≠ f.followingId := by
  obtain ⟨h1, _, h3⟩ := toggleFollow_never_self 7 []
  exact ⟨h1, h3 _ _ (by decide)⟩

/-- C8 counterexample: a `POST /social/share` request with
`shareType = external` and no `platform` at all is accepted (201
created), not rejected as a validation error; likewise
`platform = "internal_feed"`, which is outside the claimed five-value
enumeration, is accepted. -/
theorem shareRoute_accepts_external_without_platform :
    (routePostShare St.init 1 .recommendation 5 (some .external) none none 0).1
        = .created ⟨1, .recommendation, 5, .external, none, none, 0, true, 0⟩ ∧
    (routePostShare St.init 1 .recommendation 5 (some .external)
        (some "internal_feed") none 0).1
        = .created ⟨1, .recommendation, 5, .external, some "internal_feed", none, 0, true, 0⟩ := by
  exact ⟨by decide, by decide⟩

/-- C8 (amended): `platform` is optional for every share type,
`external` included; when supplied it must belong to the six-value
enumeration twitter / facebook / linkedin / email / copy_link /
internal_feed, and only a platform outside that enumeration is rejected
as a validation error. -/
theorem shareRoute_platform_rule (s : St) (u tid : Nat) (m? : Option String)
    (now : Int) (p : String)
    (hm : ∀ m, m? = some m → m.trim.length ≤ 500) :
    (routePostShare s u .recommendation tid (some .external) none m? now).1
        = .created ⟨u, .recommendation, tid, .external, none, m?, 0, true, now⟩ ∧
    ((routePostShare s u .recommendation tid (some .external) (some p) m? now).1
        = ShareRouteOut.badRequest ↔ p ∉ platformEnum) := by
  have hmsg : validateShareReq none m? = true ∧
      ∀ q : String, validateShareReq (some q) m? = decide (q ∈ platformEnum) := by
    cases m? with
    | none => exact ⟨rfl, fun q => by simp [validateShareReq]⟩
    | some m =>
        have h5 : m.trim.length ≤ 500 := hm m rfl
        exact ⟨by simp [validateShareReq, h5], fun q => by simp [validateShareReq, h5]⟩
  constructor
  · simp [routePostShare, hmsg.1]
  · by_cases hp : p ∈ platformEnum
    · simp [routePostShare, hmsg.2 p, hp]
    · simp [routePostShare, hmsg.2 p, hp]

/-- Witness for C8 (amended) at concrete inputs. -/
theorem shareRoute_platform_rule_witness :
    (routePostShare St.init 1 .recommendation 5 (some .external) none none 0).1
        = .created ⟨1, .recommendation, 5, .external, none, none, 0, true, 0⟩ ∧
    ((routePostShare St.init 1 .recommendation 5 (some .external) (some "myspace") none 0).1
        = ShareRouteOut.badRequest ↔ "myspace" ∉ platformEnum) := by
  exact shareRoute_platform_rule St.init 1 5 none 0 "myspace" (by intro m h; cases h)

/-- C4 counterexample: when the `findOne` existence check of
`toggleLike` runs against a store without the like but the insert runs
against a store where a concurrent request has already created it (the
duplicate-unique-key race), the operation raises the duplicate-key
error instead of resolving idempotently, and the `/social/like` route
surfaces it as a 500 server error. -/
theorem toggleLike_duplicate_key_surfaces :
    toggleLikeRaced St.init
        ({ St.init with likes := [⟨1, .recommendation, 5⟩] }) 1 .recommendation 5
        = .error () ∧
    (routePostLikeRaced St.init
        ({ St.init with likes := [⟨1, .recommendation, 5⟩] }) 1 .recommendation 5).1
        = .serverError := by
  exact ⟨rfl, by decide⟩

/-- C4 (amended): `toggleLike` contains no duplicate-key handling: in
every raced state where the existence check misses but the insert hits
the unique constraint, the duplicate-key error propagates out of
`toggleLike`, and the route answers with a 500 server error (leaving
the store unchanged) rather than an idempotent success. -/
theorem toggleLike_raced_duplicate_errors (sRead sWrite : St) (u tid : Nat)
    (tt : TargetType)
    (hr : likeExists sRead u tt tid = false)
    (hw : likeExists sWrite u tt tid = true)
    (htt : tt = .recommendation ∨ tt = .comment ∨ tt = .review) :
    toggleLikeRaced sRead sWrite u tt tid = .error () ∧
    (routePostLikeRaced sRead sWrite u tt tid).1 = .serverError ∧
    (routePostLikeRaced sRead sWrite u tt tid).2 = sWrite := by
  have htog : toggleLikeRaced sRead sWrite u tt tid = .error () := by
    simp [toggleLikeRaced, hr, hw]
  refine ⟨htog, ?_, ?_⟩ <;> simp [routePostLikeRaced, htog, if_pos htt]

/-- Witness for C4 (amended) at concrete inputs. -/
theorem toggleLike_raced_duplicate_errors_witness :
    toggleLikeRaced St.init
        ({ St.init with likes := [⟨2, .review, 9⟩] }) 2 .review 9 = .error () ∧
    (routePostLikeRaced St.init
        ({ St.init with likes := [⟨2, .review, 9⟩] }) 2 .review 9).1 = .serverError ∧
    (routePostLikeRaced St.init
        ({ St.init with likes := [⟨2, .review, 9⟩] }) 2 .review 9).2
      = { St.init with likes := [⟨2, .review, 9⟩] } := by
  exact toggleLike_raced_duplicate_errors _ _ 2 9 .review (by decide) (by decide)
    (Or.inr (Or.inr rfl))

/-- C3: evaluating the `POST /social/comment` handler at a reply
request.  A top-level comment (id 10) is created on recommendation 5;
a reply to it (id 11, `parentCommentId = 10`) is then created through
the same route.  The reply is stored and the target's comment count
becomes 2, but the parent's `replyCount` stays 0 — the route never
calls `addReply`, which is the only code that increments it (evaluated
in the last conjunct: `addReply` on the same state yields 1).  The
deleteOne hook nevertheless decrements `replyCount` when a reply is
deleted, so the spec's increment is the model's own intent and the
route bypassing `addReply` is the slip. -/
theorem commentRoute_reply_leaves_parent_replyCount :
    (let s1 := (routePostComment St.init 10 1 .recommendation 5 "parent".data none).2
     let s2 := (routePostComment s1 11 2 .recommendation 5 "child".data (some 10)).2
     ((s2.comments.find? fun c => c.id == 10).map (·.replyCount) = some 0) ∧
     ((s2.comments.find? fun c => c.id == 11).map (·.parentCommentId) = some (some 10)) ∧
     (s2.recs 5).commentCount = 2 ∧
     (((execAddReply s1 11 10 2 "child".data).comments.find? fun c => c.id == 10).map
        (·.replyCount) = some 1)) := by
  decide

/-- C6: no suggested follow is the requesting user, and none is a user
the requester already follows (every stored follow has status accepted,
which is the only status the code ever writes). -/
theorem getSuggestedFollows_excludes (fs : List FollowDoc) (u limit v n : Nat)
    (hacc : ∀ f ∈ fs, f.status = .accepted)
    (hv : (v, n) ∈ getSuggestedFollows fs u limit) :
    v ≠ u ∧ ∀ f ∈ fs, ¬(f.followerId = u ∧ f.followingId = v) := by
  simp only [getSuggestedFollows] at hv
  have hv1 : (v, n) ∈ sortDescBy Prod.snd (countByKey
      (((fs.filter fun f => decide (f.followerId ∈
          ((fs.filter fun f => decide (f.followerId = u ∧ f.status = .accepted)).map
            (·.followingId)) ++ [u] ∧
        f.followingId ∉
          ((fs.filter fun f => decide (f.followerId = u ∧ f.status = .accepted)).map
            (·.followingId)) ++ [u] ∧
        f.status = .accepted)).map (·.followingId)))) :=
    List.take_subset _ _ hv
  have hv2 := fst_mem_countByKey (mem_sortDescBy.mp hv1)
  rcases List.mem_map.mp hv2 with ⟨f, hf, hfv⟩
  rcases List.mem_filter.mp hf with ⟨-, hfp⟩
  rw [decide_eq_true_eq] at hfp
  obtain ⟨-, hnot, -⟩ := hfp
  rw [hfv] at hnot
  constructor
  · intro hvu
    exact hnot (List.mem_append_right _ (by simp [hvu]))
  · rintro f0 hf0 ⟨h1, h2⟩
    refine hnot (List.mem_append_left _ ?_)
    exact List.mem_map.mpr ⟨f0, List.mem_filter.mpr ⟨hf0, by
      simp [h1, hacc f0 hf0]⟩, h2⟩

/-- Witness for C6 at concrete inputs. -/
theorem getSuggestedFollows_excludes_witness :
    (4 : Nat) ≠ 1 ∧
    ∀ f ∈ ([⟨1, 2, .accepted⟩, ⟨1, 3, .accepted⟩, ⟨2, 4, .accepted⟩,
        ⟨3, 4, .accepted⟩] : List FollowDoc),
      ¬(f.followerId = 1 ∧ f.followingId = 4) := by
  exact getSuggestedFollows_excludes _ 1 10 4 2 (by decide) (by decide)

/-! ### Lemmas about the like hook and the like collection -/

/-- The like hook never touches the like collection itself. -/
theorem likes_updateTargetLikeCount (s : St) (tt : TargetType) (tid : Nat) :
    (updateTargetLikeCount s tt tid).likes = s.likes := by
  cases tt <;> rfl

/-- `find?` by id commutes with the hook's likeCount rewrite of the
comment documents. -/
theorem find?_map_setLikeCount (l : List CommentDoc) (tid n : Nat) :
    ((l.map fun c => if c.id = tid then { c with likeCount := n } else c).find?
        fun c => c.id == tid)
      = (l.find? fun c => c.id == tid).map
          fun c => if c.id = tid then { c with likeCount := n } else c := by
  induction l with
  | nil => rfl
  | cons a l ih =>
      by_cases ha : a.id = tid
      · simp [ha]
      · simp [ha, ih]

/-- After the like hook runs, the cached likeCount of its target equals
the live count it computed (for the three target types likes can have;
for a comment target either the comment document exists or the live
count is zero). -/
theorem cachedLikeCount_updateTargetLikeCount (s : St) (tt : TargetType) (tid : Nat)
    (htt : tt ≠ .book)
    (hc : tt = .comment →
      (s.comments.any fun c => c.id == tid) = true ∨ countLikes s tt tid = 0) :
    cachedLikeCount (updateTargetLikeCount s tt tid) tt tid = countLikes s tt tid := by
  cases tt with
  | book => exact absurd rfl htt
  | recommendation => simp [cachedLikeCount, updateTargetLikeCount, setTable, countLikes]
  | review => simp [cachedLikeCount, updateTargetLikeCount, setTable, countLikes]
  | comment =>
      show ((((s.comments.map fun c =>
          if c.id = tid then { c with likeCount := countLikes s .comment tid } else c).find?
            fun c => c.id == tid).map (·.likeCount)).getD 0) = countLikes s .comment tid
      rw [find?_map_setLikeCount]
      cases hfind : s.comments.find? fun c => c.id == tid with
      | none =>
          rcases hc rfl with hany | h0
          · exfalso
            obtain ⟨c0, hc0, hp⟩ := List.any_eq_true.mp hany
            exact absurd hp (by simpa using List.find?_eq_none.mp hfind c0 hc0)
          · simp [h0]
      | some c0 =>
          have hid : c0.id = tid := by simpa using List.find?_some hfind
          simp [hid]

/-- A matched `eraseP` removes the only key occurrence when the key is
unique. -/
theorem any_eraseP_of_le_one {α : Type} (p : α → Bool) :
    ∀ (l : List α), (l.filter p).length ≤ 1 → (l.eraseP p).any p = false
  | [], _ => rfl
  | a :: l, h => by
      by_cases ha : p a = true
      · rw [List.eraseP_cons_of_pos ha]
        have : (l.filter p).length = 0 := by
          rw [List.filter_cons_of_pos ha] at h
          simpa using h
        have hl : l.filter p = [] := List.length_eq_zero.mp this
        rw [List.any_eq_false]
        intro x hx
        simpa using List.filter_eq_nil_iff.mp hl x hx
      · rw [List.eraseP_cons_of_neg (by simpa using ha)]
        have h' : (l.filter p).length ≤ 1 := by
          rwa [List.filter_cons_of_neg (by simpa using ha)] at h
        simp [List.any_cons, ha, any_eraseP_of_le_one p l h']

/-- Erasing one `p`-matching element reduces a `q`-count by exactly one
when `p` entails `q` and a match exists. -/
theorem length_filter_eraseP_of_imp {α : Type} (p q : α → Bool)
    (himp : ∀ x, p x = true → q x = true) :
    ∀ (l : List α), l.any p = true →
      ((l.eraseP p).filter q).length + 1 = (l.filter q).length
  | a :: l, hex => by
      by_cases ha : p a = true
      · rw [List.eraseP_cons_of_pos ha, List.filter_cons_of_pos (himp a ha)]
        simp
      · rw [List.eraseP_cons_of_neg (by simpa using ha)]
        have hex' : l.any p = true := by simpa [List.any_cons, ha] using hex
        by_cases hq : q a = true
        · rw [List.filter_cons_of_pos hq, List.filter_cons_of_pos hq]
          simpa using length_filter_eraseP_of_imp p q himp l hex'
        · rw [List.filter_cons_of_neg (by simpa using hq),
            List.filter_cons_of_neg (by simpa using hq)]
          exact length_filter_eraseP_of_imp p q himp l hex'

/-- The like hook never changes which comment ids are present. -/
theorem any_id_updateTargetLikeCount (s : St) (tt : TargetType) (tid i : Nat) :
    ((updateTargetLikeCount s tt tid).comments.any fun c => c.id == i)
      = (s.comments.any fun c => c.id == i) := by
  cases tt with
  | comment =>
      show ((s.comments.map fun c =>
          if c.id = tid then { c with likeCount := countLikes s .comment tid } else c).any
            fun c => c.id == i) = _
      rw [List.any_map]
      congr 1
      funext c
      by_cases hc : c.id = tid <;> simp [hc, Function.comp]
  | recommendation => rfl
  | review => rfl
  | book => rfl

/-- C2: toggling a like twice in sequence for the same (user, target)
restores the original state: the second call returns the like-existence
to its pre-first-call value and the target's cached likeCount to its
original value; each single call answers liked = true exactly when it
inserted the like.  Stated for stores where the unique index holds for
this key (at most one matching like) and the target's cached count is
consistent with the live count, both of which the code maintains. -/
theorem toggleLike_pair_restores (s : St) (u tid : Nat) (tt : TargetType)
    (htt : tt ≠ .book)
    (huniq : (s.likes.filter (likeKeyMatch u tt tid)).length ≤ 1)
    (hcons : cachedLikeCount s tt tid = countLikes s tt tid)
    (s1 s2 : St) (b1 b2 : Bool)
    (h1 : toggleLike s u tt tid = .ok (s1, b1))
    (h2 : toggleLike s1 u tt tid = .ok (s2, b2)) :
    b1 = !(likeExists s u tt tid) ∧
    likeExists s1 u tt tid = b1 ∧
    b2 = !b1 ∧
    likeExists s2 u tt tid = likeExists s u tt tid ∧
    cachedLikeCount s2 tt tid = cachedLikeCount s tt tid := by
  have hkey : likeKeyMatch u tt tid ⟨u, tt, tid⟩ = true := by
    simp [likeKeyMatch]
  by_cases hex : likeExists s u tt tid = true
  · -- delete, then insert
    rw [toggleLike, toggleLikeRaced, if_pos hex] at h1
    obtain ⟨hs1, hb1⟩ : updateTargetLikeCount
        { s with likes := s.likes.eraseP (likeKeyMatch u tt tid) } tt tid = s1 ∧
        false = b1 := by
      simpa using h1
    have hlikes1 : s1.likes = s.likes.eraseP (likeKeyMatch u tt tid) := by
      rw [← hs1, likes_updateTargetLikeCount]
    have hex1 : likeExists s1 u tt tid = false := by
      rw [likeExists, hlikes1]
      exact any_eraseP_of_le_one _ _ huniq
    rw [toggleLike, toggleLikeRaced, if_neg (by simp [hex1]),
      if_neg (by simp [hex1])] at h2
    obtain ⟨hs2, hb2⟩ : updateTargetLikeCount
        { s1 with likes := ⟨u, tt, tid⟩ :: s1.likes } tt tid = s2 ∧ true = b2 := by
      simpa using h2
    have hlikes2 : s2.likes = ⟨u, tt, tid⟩ :: s1.likes := by
      rw [← hs2, likes_updateTargetLikeCount]
    have hex2 : likeExists s2 u tt tid = true := by
      rw [likeExists, hlikes2]
      simp [List.any_cons, hkey]
    have hcount : countLikes ({ s1 with likes := ⟨u, tt, tid⟩ :: s1.likes }) tt tid
        = countLikes s tt tid := by
      have hstep := length_filter_eraseP_of_imp (likeKeyMatch u tt tid)
        (fun l => decide (l.targetType = tt ∧ l.targetId = tid))
        (by intro x hx; simp [likeKeyMatch] at hx; simp [hx]) s.likes hex
      have hk2 : (fun (l : LikeDoc) => decide (l.targetType = tt ∧ l.targetId = tid))
          (⟨u, tt, tid⟩ : LikeDoc) = true := by simp
      simp only [countLikes, hlikes1, List.filter_cons_of_pos hk2]
      simpa using hstep
    have hanyeq : (s1.comments.any fun c => c.id == tid)
        = (s.comments.any fun c => c.id == tid) := by
      rw [← hs1, any_id_updateTargetLikeCount]
    have hcached : cachedLikeCount s2 tt tid = countLikes s tt tid := by
      rw [← hs2, cachedLikeCount_updateTargetLikeCount _ _ _ htt, hcount]
      intro httc
      by_cases hany : (s.comments.any fun c => c.id == tid) = true
      · exact Or.inl (by
          show (s1.comments.any fun c => c.id == tid) = true
          rw [hanyeq]
          exact hany)
      · refine Or.inr ?_
        rw [hcount]
        have hfind : (s.comments.find? fun c => c.id == tid) = none := by
          rw [List.find?_eq_none]
          intro c hcmem hpc
          exact hany (List.any_eq_true.mpr ⟨c, hcmem, hpc⟩)
        subst httc
        rw [cachedLikeCount, hfind] at hcons
        simpa using hcons.symm
    subst hb1
    subst hb2
    exact ⟨by simp [hex], hex1, by decide, by rw [hex2, hex], by rw [hcached, hcons]⟩
  · -- insert, then delete
    rw [Bool.not_eq_true] at hex
    rw [toggleLike, toggleLikeRaced, if_neg (by simp [hex]),
      if_neg (by simp [hex])] at h1
    obtain ⟨hs1, hb1⟩ : updateTargetLikeCount
        { s with likes := ⟨u, tt, tid⟩ :: s.likes } tt tid = s1 ∧ true = b1 := by
      simpa using h1
    have hlikes1 : s1.likes = ⟨u, tt, tid⟩ :: s.likes := by
      rw [← hs1, likes_updateTargetLikeCount]
    have hex1 : likeExists s1 u tt tid = true := by
      rw [likeExists, hlikes1]
      simp [List.any_cons, hkey]
    rw [toggleLike, toggleLikeRaced, if_pos hex1] at h2
    obtain ⟨hs2, hb2⟩ : updateTargetLikeCount
        { s1 with likes := s1.likes.eraseP (likeKeyMatch u tt tid) } tt tid = s2 ∧
        false = b2 := by
      simpa using h2
    have herase : s1.likes.eraseP (likeKeyMatch u tt tid) = s.likes := by
      rw [hlikes1, List.eraseP_cons_of_pos hkey]
    have hlikes2 : s2.likes = s.likes := by
      rw [← hs2, likes_updateTargetLikeCount]
      exact herase
    have hex2 : likeExists s2 u tt tid = false := by
      rw [likeExists, hlikes2]
      exact hex
    have hcount : countLikes { s1 with likes := s1.likes.eraseP (likeKeyMatch u tt tid) } tt tid = countLikes s tt tid := by
      simp only [countLikes, herase]
    have hanyeq : (s1.comments.any fun c => c.id == tid)
        = (s.comments.any fun c => c.id == tid) := by
      rw [← hs1, any_id_updateTargetLikeCount]
    have hcached : cachedLikeCount s2 tt tid = countLikes s tt tid := by
      rw [← hs2, cachedLikeCount_updateTargetLikeCount _ _ _ htt, hcount]
      intro httc
      by_cases hany : (s.comments.any fun c => c.id == tid) = true
      · exact Or.inl (by
          show (s1.comments.any fun c => c.id == tid) = true
          rw [hanyeq]
          exact hany)
      · refine Or.inr ?_
        rw [hcount]
        have hfind : (s.comments.find? fun c => c.id == tid) = none := by
          rw [List.find?_eq_none]
          intro c hcmem hpc
          exact hany (List.any_eq_true.mpr ⟨c, hcmem, hpc⟩)
        subst httc
        rw [cachedLikeCount, hfind] at hcons
        simpa using hcons.symm
    subst hb1
    subst hb2
    exact ⟨by simp [hex], hex1, by decide, by rw [hex2, hex], by rw [hcached, hcons]⟩

/-- Witness for C2 at concrete inputs: user 3 toggles a like on
recommendation 5 twice starting from a store that already holds someone
else's like on the same target. -/
theorem toggleLike_pair_restores_witness :
    (let s0 : St := (routePostLike St.init 1 .recommendation 5).2
     ∃ s1 s2 b1 b2, toggleLike s0 3 .recommendation 5 = .ok (s1, b1) ∧
       toggleLike s1 3 .recommendation 5 = .ok (s2, b2) ∧
       (b1 = !(likeExists s0 3 .recommendation 5) ∧
        likeExists s1 3 .recommendation 5 = b1 ∧
        b2 = !b1 ∧
        likeExists s2 3 .recommendation 5 = likeExists s0 3 .recommendation 5 ∧
        cachedLikeCount s2 .recommendation 5 = cachedLikeCount s0 .recommendation 5)) := by
  refine ⟨_, _, _, _, rfl, rfl, ?_⟩
  exact toggleLike_pair_restores _ 3 5 .recommendation (by decide) (by decide)
    (by decide) _ _ _ _ rfl rfl

/-! ### Lemmas about the comment hook and comment deletion -/

/-- The comment hook never changes the comment collection. -/
theorem comments_updateTargetCommentCount (s : St) (tt : TargetType) (tid : Nat) :
    (updateTargetCommentCount s tt tid).comments = s.comments := by
  cases tt <;> rfl

/-- After erasing the (unique) comment with a given id, no stored
comment carries that id any more. -/
theorem no_id_after_eraseP (l : List CommentDoc) (cid : Nat)
    (hnd : (l.map (·.id)).Nodup) :
    ∀ x ∈ l.eraseP fun c => c.id == cid, x.id ≠ cid := by
  induction l with
  | nil => simp
  | cons a l ih =>
      rw [List.map_cons, List.nodup_cons] at hnd
      obtain ⟨ha, hl⟩ := hnd
      by_cases hid : a.id = cid
      · rw [List.eraseP_cons_of_pos (by simp [hid])]
        intro x hx hxid
        apply ha
        have hmem : x.id ∈ l.map (·.id) := List.mem_map_of_mem _ hx
        rwa [hxid, ← hid] at hmem
      · rw [List.eraseP_cons_of_neg (by simp [hid])]
        intro x hx
        rcases List.mem_cons.mp hx with rfl | hx
        · exact hid
        · exact ih hl x hx

/-- With duplicate-free ids, `find?` by id returns the member that has
that id. -/
theorem find?_id_of_mem_nodup (l : List CommentDoc) (x : CommentDoc) (pid : Nat)
    (hnd : (l.map (·.id)).Nodup) (hx : x ∈ l) (hid : x.id = pid) :
    (l.find? fun c => c.id == pid) = some x := by
  induction l with
  | nil => cases hx
  | cons a l ih =>
      rw [List.map_cons, List.nodup_cons] at hnd
      obtain ⟨ha, hl⟩ := hnd
      rcases List.mem_cons.mp hx with rfl | hmem
      · rw [List.find?_cons_of_pos _ (by simp [hid])]
      · by_cases haid : a.id = pid
        · refine absurd ?_ ha
          have hmem2 : x.id ∈ l.map (·.id) := List.mem_map_of_mem _ hmem
          rwa [hid, ← haid] at hmem2
        · rw [List.find?_cons_of_neg _ (by simp [haid])]
          exact ih hl hmem

/-- The pre-save middleware is a no-op (up to the replyCount being
written) on documents the save pipeline has already normalized. -/
theorem commentPreSave_replyCount_update (c : CommentDoc) (r : Int)
    (hn : c.text = trimChars c.text)
    (hm : containsBadWord c.text = true → c.isModerated = true) :
    commentPreSave { c with replyCount := r } = { c with replyCount := r } := by
  simp only [commentPreSave]
  rw [show trimChars ({ c with replyCount := r } : CommentDoc).text
      = ({ c with replyCount := r } : CommentDoc).text from hn.symm]
  cases hb : containsBadWord c.text
  · simp
  · simp [hm hb]

/-- The pre-save middleware never changes id, target, publicity or the
reply counter. -/
theorem commentPreSave_fields (c : CommentDoc) :
    (commentPreSave c).id = c.id ∧
    (commentPreSave c).targetType = c.targetType ∧
    (commentPreSave c).targetId = c.targetId ∧
    (commentPreSave c).isPublic = c.isPublic ∧
    (commentPreSave c).replyCount = c.replyCount := by
  simp [commentPreSave]

/-- Rewriting the parent's replyCount (through the pre-save middleware,
on a normalized store) does not change any public-comment count. -/
theorem countPubComments_map_decrement (l : List CommentDoc) (pid : Nat)
    (g : Int → Int) (tt : TargetType) (tid : Nat)
    (hnorm : ∀ x ∈ l, x.text = trimChars x.text ∧
      (containsBadWord x.text = true → x.isModerated = true)) :
    ((l.map fun c' => if c'.id = pid then
        commentPreSave { c' with replyCount := g c'.replyCount } else c').filter fun c =>
          decide (c.targetType = tt ∧ c.targetId = tid) && c.isPublic && !c.isModerated).length
      = (l.filter fun c =>
          decide (c.targetType = tt ∧ c.targetId = tid) && c.isPublic && !c.isModerated).length := by
  rw [← List.countP_eq_length_filter, ← List.countP_eq_length_filter, List.countP_map]
  refine List.countP_congr ?_
  intro x hx
  obtain ⟨hn, hm⟩ := hnorm x hx
  have heq : ((fun c => decide (c.targetType = tt ∧ c.targetId = tid) && c.isPublic
        && !c.isModerated) ∘ fun c' => if c'.id = pid then
          commentPreSave { c' with replyCount := g c'.replyCount } else c') x
      = (fun c => decide (c.targetType = tt ∧ c.targetId = tid) && c.isPublic
        && !c.isModerated) x := by
    simp only [Function.comp_apply]
    by_cases hid : x.id = pid
    · rw [if_pos hid, commentPreSave_replyCount_update x _ hn hm]
    · rw [if_neg hid]
  rw [heq]

/-- After the comment hook runs at a recommendation/review target, that
target's cached commentCount equals the live filtered count the hook
computed. -/
theorem cachedCommentCount_update_self (s : St) (tt : TargetType) (tid : Nat)
    (htt : tt = .recommendation ∨ tt = .review) :
    cachedCommentCount (updateTargetCommentCount s tt tid) tt tid
      = countPubComments s tt tid := by
  rcases htt with rfl | rfl <;>
    simp [cachedCommentCount, updateTargetCommentCount, setTable, countPubComments]

/-- The comment hook leaves every other target's cached commentCount
alone. -/
theorem cachedCommentCount_update_other (s : St) (tt' : TargetType) (tid' : Nat)
    (tt : TargetType) (tid : Nat) (h : ¬(tt = tt' ∧ tid = tid')) :
    cachedCommentCount (updateTargetCommentCount s tt' tid') tt tid
      = cachedCommentCount s tt tid := by
  cases tt' with
  | recommendation =>
      cases tt with
      | recommendation =>
          have hne : tid ≠ tid' := fun he => h ⟨rfl, he⟩
          simp [cachedCommentCount, updateTargetCommentCount, setTable, hne]
      | review => rfl
      | comment => rfl
      | book => rfl
  | review =>
      cases tt with
      | review =>
          have hne : tid ≠ tid' := fun he => h ⟨rfl, he⟩
          simp [cachedCommentCount, updateTargetCommentCount, setTable, hne]
      | recommendation => rfl
      | comment => rfl
      | book => rfl
  | comment => rfl
  | book => rfl

/-- C5: `DELETE /social/comments/:commentId` fails with Forbidden and
leaves the store untouched whenever the requester does not own the
comment; on success the comment is gone, the target's cached
commentCount equals the recomputed live count, and when the deleted
comment was a reply the surviving parent's replyCount is the clamped
decrement `max 0 (replyCount - 1)` (the code's `Math.max(0, ... - 1)`).
Stated for stores whose comment ids are duplicate-free and whose stored
comments are save-pipeline-normalized, as the code maintains. -/
theorem deleteComment_auth_and_recount (s : St) (cid req : Nat) (c : CommentDoc)
    (hfind : (s.comments.find? fun x => x.id == cid) = some c)
    (hnodup : (s.comments.map (·.id)).Nodup)
    (hnorm : ∀ x ∈ s.comments, x.text = trimChars x.text ∧
      (containsBadWord x.text = true → x.isModerated = true))
    (htt : c.targetType = .recommendation ∨ c.targetType = .review) :
    (c.userId ≠ req → execDeleteComment s cid req = (.forbidden, s)) ∧
    (c.userId = req →
      (execDeleteComment s cid req).1 = .ok ∧
      (∀ x ∈ (execDeleteComment s cid req).2.comments, x.id ≠ cid) ∧
      cachedCommentCount (execDeleteComment s cid req).2 c.targetType c.targetId
        = countPubComments (execDeleteComment s cid req).2 c.targetType c.targetId ∧
      ∀ pid, c.parentCommentId = some pid → pid ≠ cid →
        ∀ p ∈ s.comments, p.id = pid →
          ∃ p' ∈ (execDeleteComment s cid req).2.comments,
            p'.id = pid ∧ p'.replyCount = max 0 (p.replyCount - 1)) := by
  constructor
  · intro hne
    simp [execDeleteComment, hfind, hne]
  · intro heq
    have hE : ∀ x ∈ s.comments.eraseP fun c' => c'.id == cid, x ∈ s.comments :=
      fun x hx => (List.eraseP_sublist _).subset hx
    have hndE : ((s.comments.eraseP fun c' => c'.id == cid).map (·.id)).Nodup :=
      hnodup.sublist ((List.eraseP_sublist s.comments).map fun x => x.id)
    have hcomments2 : (updateTargetCommentCount
        { s with comments := s.comments.eraseP fun c' => c'.id == cid }
        c.targetType c.targetId).comments
        = s.comments.eraseP fun c' => c'.id == cid :=
      comments_updateTargetCommentCount _ _ _
    cases hpar : c.parentCommentId with
    | none =>
        have hrun : execDeleteComment s cid req = (.ok, updateTargetCommentCount
            { s with comments := s.comments.eraseP fun c' => c'.id == cid }
            c.targetType c.targetId) := by
          simp only [execDeleteComment, hfind, if_pos heq, hpar]
        rw [hrun]
        refine ⟨rfl, ?_, ?_, ?_⟩
        · intro x hx
          rw [hcomments2] at hx
          exact no_id_after_eraseP _ _ hnodup x hx
        · rw [cachedCommentCount_update_self _ _ _ htt]
          show countPubComments _ c.targetType c.targetId = _
          simp only [countPubComments, hcomments2]
        · intro pid hpc
          cases hpc
    | some pid =>
        cases hfp : ((s.comments.eraseP fun c' => c'.id == cid).find?
            fun c' => c'.id == pid) with
        | none =>
            have hrun : execDeleteComment s cid req = (.ok, updateTargetCommentCount
                { s with comments := s.comments.eraseP fun c' => c'.id == cid }
                c.targetType c.targetId) := by
              simp only [execDeleteComment, hfind, if_pos heq, hpar, hcomments2, hfp]
            rw [hrun]
            refine ⟨rfl, ?_, ?_, ?_⟩
            · intro x hx
              rw [hcomments2] at hx
              exact no_id_after_eraseP _ _ hnodup x hx
            · rw [cachedCommentCount_update_self _ _ _ htt]
              show countPubComments _ c.targetType c.targetId = _
              simp only [countPubComments, hcomments2]
            · intro pid' hpc hne' p hp hpid
              exfalso
              injection hpc with hinj
              subst hinj
              have hpE : p ∈ s.comments.eraseP fun c' => c'.id == cid :=
                (List.mem_eraseP_of_neg (by simp [hpid, hne'])).mpr hp
              rw [find?_id_of_mem_nodup _ p pid hndE hpE hpid] at hfp
              cases hfp
        | some p0 =>
            have hrun : execDeleteComment s cid req = (.ok, updateTargetCommentCount
                { updateTargetCommentCount
                    { s with comments := s.comments.eraseP fun c' => c'.id == cid }
                    c.targetType c.targetId with
                  comments := (s.comments.eraseP fun c' => c'.id == cid).map fun c' =>
                    if c'.id = pid then
                      commentPreSave { c' with replyCount := max 0 (c'.replyCount - 1) }
                    else c' }
                p0.targetType p0.targetId) := by
              simp only [execDeleteComment, hfind, if_pos heq, hpar, hcomments2, hfp]
            have hdecid : ∀ x : CommentDoc, ((if x.id = pid then
                commentPreSave { x with replyCount := max 0 (x.replyCount - 1) }
                else x) : CommentDoc).id = x.id := by
              intro x
              by_cases hx : x.id = pid
              · rw [if_pos hx]
                exact (commentPreSave_fields _).1
              · rw [if_neg hx]
            rw [hrun]
            have hcomments3 : (updateTargetCommentCount
                { updateTargetCommentCount
                    { s with comments := s.comments.eraseP fun c' => c'.id == cid }
                    c.targetType c.targetId with
                  comments := (s.comments.eraseP fun c' => c'.id == cid).map fun c' =>
                    if c'.id = pid then
                      commentPreSave { c' with replyCount := max 0 (c'.replyCount - 1) }
                    else c' }
                p0.targetType p0.targetId).comments
                = (s.comments.eraseP fun c' => c'.id == cid).map fun c' =>
                    if c'.id = pid then
                      commentPreSave { c' with replyCount := max 0 (c'.replyCount - 1) }
                    else c' :=
              comments_updateTargetCommentCount _ _ _
            have hnormE : ∀ x ∈ s.comments.eraseP fun c' => c'.id == cid,
                x.text = trimChars x.text ∧
                  (containsBadWord x.text = true → x.isModerated = true) :=
              fun x hx => hnorm x (hE x hx)
            have hpubmap : ∀ (tt : TargetType) (tid : Nat),
                countPubComments (updateTargetCommentCount
                  { updateTargetCommentCount
                      { s with comments := s.comments.eraseP fun c' => c'.id == cid }
                      c.targetType c.targetId with
                    comments := (s.comments.eraseP fun c' => c'.id == cid).map fun c' =>
                      if c'.id = pid then
                        commentPreSave { c' with replyCount := max 0 (c'.replyCount - 1) }
                      else c' }
                  p0.targetType p0.targetId) tt tid
                = countPubComments
                    { s with comments := s.comments.eraseP fun c' => c'.id == cid } tt tid := by
              intro tt tid
              show ((_ : St).comments.filter _).length = _
              rw [hcomments3]
              exact countPubComments_map_decrement _ pid (fun r => max 0 (r - 1)) tt tid
                hnormE
            refine ⟨rfl, ?_, ?_, ?_⟩
            · intro x hx
              rw [hcomments3] at hx
              rcases List.mem_map.mp hx with ⟨y, hy, rfl⟩
              rw [hdecid y]
              exact no_id_after_eraseP _ _ hnodup y hy
            · by_cases hk : c.targetType = p0.targetType ∧ c.targetId = p0.targetId
              · obtain ⟨hk1, hk2⟩ := hk
                rw [hk1, hk2]
                rw [cachedCommentCount_update_self _ _ _ (by
                  rcases htt with h | h
                  · exact Or.inl (hk1 ▸ h)
                  · exact Or.inr (hk1 ▸ h))]
                show _ = ((updateTargetCommentCount _ p0.targetType p0.targetId).comments.filter _).length
                rw [comments_updateTargetCommentCount]
                rfl
              · rw [cachedCommentCount_update_other _ _ _ _ _ hk]
                have hcc : cachedCommentCount { updateTargetCommentCount
                    { s with comments := s.comments.eraseP fun c' => c'.id == cid }
                    c.targetType c.targetId with
                  comments := (s.comments.eraseP fun c' => c'.id == cid).map fun c' =>
                    if c'.id = pid then
                      commentPreSave { c' with replyCount := max 0 (c'.replyCount - 1) }
                    else c' } c.targetType c.targetId
                    = cachedCommentCount (updateTargetCommentCount
                        { s with comments := s.comments.eraseP fun c' => c'.id == cid }
                        c.targetType c.targetId) c.targetType c.targetId := by
                  rcases htt with h | h <;> rw [h] <;> rfl
                rw [hcc, cachedCommentCount_update_self _ _ _ htt, hpubmap]
            · intro pid' hpc hne' p hp hpid
              injection hpc with hinj
              subst hinj
              have hpE : p ∈ s.comments.eraseP fun c' => c'.id == cid :=
                (List.mem_eraseP_of_neg (by simp [hpid, hne'])).mpr hp
              refine ⟨if p.id = pid then
                  commentPreSave { p with replyCount := max 0 (p.replyCount - 1) }
                else p, ?_, ?_, ?_⟩
              · rw [hcomments3]
                exact List.mem_map_of_mem _ hpE
              · rw [hdecid p, hpid]
              · rw [if_pos hpid]
                rw [(commentPreSave_fields _).2.2.2.2]

/-- Witness for C5 at concrete inputs: forbidden for a non-owner,
full recount and parent decrement for the owner. -/
theorem deleteComment_auth_and_recount_witness :
    (let s1 := (routePostComment St.init 10 1 .recommendation 5 "parent".data none).2
     let s2 := (execAddReply s1 11 10 2 "child".data)
     execDeleteComment s2 11 9 = (.forbidden, s2) ∧
       (execDeleteComment s2 11 2).1 = .ok ∧
       (∀ x ∈ (execDeleteComment s2 11 2).2.comments, x.id ≠ 11) ∧
       ∃ p' ∈ (execDeleteComment s2 11 2).2.comments,
         p'.id = 10 ∧ p'.replyCount = max 0 ((1 : Int) - 1)) := by
    intro s1 s2
    have hfind : (s2.comments.find? fun x => x.id == 11)
        = some ⟨11, 2, .recommendation, 5, "child".data, some 10, 0, 0, true, false⟩ := by
      decide
    obtain ⟨hforb, hok⟩ := deleteComment_auth_and_recount s2 11 9 _ hfind
      (by decide) (by decide) (Or.inl rfl)
    obtain ⟨hforb2, hok2⟩ := deleteComment_auth_and_recount s2 11 2 _ hfind
      (by decide) (by decide) (Or.inl rfl)
    obtain ⟨h1, h2, h3, h4⟩ := hok2 rfl
    refine ⟨hforb (by decide), h1, h2, ?_⟩
    have hparent : (⟨10, 1, .recommendation, 5, "parent".data, none, 1, 0, true, false⟩ :
        CommentDoc) ∈ s2.comments := by decide
    obtain ⟨p', hp1', hp2', hp3'⟩ := h4 10 rfl (by decide) _ hparent (by decide)
    exact ⟨p', hp1', hp2', by rw [hp3']⟩

/-! ### Lemmas about the trending-share aggregation -/

theorem key_mem_bumpShare (d : ShareDoc) (k : TargetType × Nat) :
    ∀ (gs : List TrendGroup),
      (k ∈ (bumpShare d gs).map groupKey ↔ k = shareKey d ∨ k ∈ gs.map groupKey)
  | [] => by simp [bumpShare, groupKey, shareKey]
  | g1 :: gs => by
      by_cases hk : groupKey g1 = shareKey d
      · rw [bumpShare, if_pos hk]
        simp only [List.map_cons, List.mem_cons]
        have hbk : groupKey (⟨g1.targetType, g1.targetId, g1.shareCount + 1,
            g1.totalClicks + d.clickCount⟩ : TrendGroup) = groupKey g1 := rfl
        rw [hbk]
        constructor
        · rintro (h | h)
          · exact Or.inl (h.trans hk)
          · exact Or.inr (Or.inr h)
        · rintro (h | h | h)
          · exact Or.inl (h.trans hk.symm)
          · exact Or.inl h
          · exact Or.inr h
      · rw [bumpShare, if_neg hk]
        simp only [List.map_cons, List.mem_cons]
        rw [key_mem_bumpShare d k gs]
        tauto

theorem nodup_keys_bumpShare (d : ShareDoc) :
    ∀ (gs : List TrendGroup), (gs.map groupKey).Nodup →
      ((bumpShare d gs).map groupKey).Nodup
  | [] => by
      intro _
      simp [bumpShare]
  | g1 :: gs => by
      intro hnd
      rw [List.map_cons, List.nodup_cons] at hnd
      obtain ⟨h1, h2⟩ := hnd
      by_cases hk : groupKey g1 = shareKey d
      · rw [bumpShare, if_pos hk, List.map_cons, List.nodup_cons]
        exact ⟨h1, h2⟩
      · rw [bumpShare, if_neg hk, List.map_cons, List.nodup_cons]
        refine ⟨?_, nodup_keys_bumpShare d gs h2⟩
        intro hmem
        rcases (key_mem_bumpShare d _ gs).mp hmem with he | hmem2
        · exact hk he
        · exact h1 hmem2

theorem nodup_keys_groupShares : ∀ (l : List ShareDoc),
    ((groupShares l).map groupKey).Nodup
  | [] => by simp [groupShares]
  | d :: l => nodup_keys_bumpShare d _ (nodup_keys_groupShares l)

theorem key_complete_groupShares (k : TargetType × Nat) : ∀ (l : List ShareDoc),
    (k ∈ (groupShares l).map groupKey ↔ ∃ d ∈ l, shareKey d = k)
  | [] => by simp [groupShares]
  | d :: l => by
      rw [groupShares, key_mem_bumpShare d k (groupShares l),
        key_complete_groupShares k l]
      constructor
      · rintro (rfl | ⟨d', hd', rfl⟩)
        · exact ⟨d, List.mem_cons_self d l, rfl⟩
        · exact ⟨d', List.mem_cons_of_mem d hd', rfl⟩
      · rintro ⟨d', hd', rfl⟩
        rcases List.mem_cons.mp hd' with rfl | hd'
        · exact Or.inl rfl
        · exact Or.inr ⟨d', hd', rfl⟩

theorem bumpShare_mem (d : ShareDoc) :
    ∀ (gs : List TrendGroup), (gs.map groupKey).Nodup → ∀ g ∈ bumpShare d gs,
      (∃ g0 ∈ gs, groupKey g0 = shareKey d ∧
        g = ⟨g0.targetType, g0.targetId, g0.shareCount + 1, g0.totalClicks + d.clickCount⟩) ∨
      ((∀ g0 ∈ gs, groupKey g0 ≠ shareKey d) ∧
        g = ⟨d.targetType, d.targetId, 1, d.clickCount⟩) ∨
      (g ∈ gs ∧ groupKey g ≠ shareKey d)
  | [] => by
      intro _ g hg
      simp only [bumpShare, List.mem_singleton] at hg
      exact Or.inr (Or.inl ⟨by simp, hg⟩)
  | g1 :: gs => by
      intro hnd g hg
      rw [List.map_cons, List.nodup_cons] at hnd
      obtain ⟨h1, h2⟩ := hnd
      by_cases hk : groupKey g1 = shareKey d
      · rw [bumpShare, if_pos hk] at hg
        rcases List.mem_cons.mp hg with rfl | hg
        · exact Or.inl ⟨g1, List.mem_cons_self g1 gs, hk, rfl⟩
        · refine Or.inr (Or.inr ⟨List.mem_cons_of_mem _ hg, ?_⟩)
          intro he
          apply h1
          have hmem := List.mem_map_of_mem groupKey hg
          rwa [he, ← hk] at hmem
      · rw [bumpShare, if_neg hk] at hg
        rcases List.mem_cons.mp hg with rfl | hg
        · exact Or.inr (Or.inr ⟨List.mem_cons_self _ _, hk⟩)
        · rcases bumpShare_mem d gs h2 g hg with ⟨g0, hg0, hk0, rfl⟩ | ⟨hall, rfl⟩ |
            ⟨hmem, hne⟩
          · exact Or.inl ⟨g0, List.mem_cons_of_mem _ hg0, hk0, rfl⟩
          · refine Or.inr (Or.inl ⟨?_, rfl⟩)
            intro g0 hg0
            rcases List.mem_cons.mp hg0 with rfl | hg0
            · exact hk
            · exact hall g0 hg0
          · exact Or.inr (Or.inr ⟨List.mem_cons_of_mem _ hmem, hne⟩)

/-- Every bucket of the `$group` stage carries the exact share count and
click sum of its key over the grouped documents. -/
theorem groupShares_counts : ∀ (l : List ShareDoc), ∀ g ∈ groupShares l,
    g.shareCount = (l.filter fun d => decide (shareKey d = groupKey g)).length ∧
    g.totalClicks
      = ((l.filter fun d => decide (shareKey d = groupKey g)).map (·.clickCount)).sum
  | [] => by simp [groupShares]
  | d :: l => by
      intro g hg
      rw [groupShares] at hg
      rcases bumpShare_mem d _ (nodup_keys_groupShares l) g hg with
        ⟨g0, hg0, hk0, rfl⟩ | ⟨hall, rfl⟩ | ⟨hmem, hne⟩
      · obtain ⟨hc, hs⟩ := groupShares_counts l g0 hg0
        have hkey : groupKey (⟨g0.targetType, g0.targetId, g0.shareCount + 1,
            g0.totalClicks + d.clickCount⟩ : TrendGroup) = groupKey g0 := rfl
        rw [show (⟨g0.targetType, g0.targetId, g0.shareCount + 1,
            g0.totalClicks + d.clickCount⟩ : TrendGroup).shareCount
            = g0.shareCount + 1 from rfl,
          show (⟨g0.targetType, g0.targetId, g0.shareCount + 1,
            g0.totalClicks + d.clickCount⟩ : TrendGroup).totalClicks
            = g0.totalClicks + d.clickCount from rfl, hkey,
          List.filter_cons_of_pos (by simp [← hk0])]
        constructor
        · simp [hc]
        · simp [hs, Nat.add_comm]
      · have hkey : groupKey (⟨d.targetType, d.targetId, 1, d.clickCount⟩ : TrendGroup)
            = shareKey d := rfl
        have hfl : (l.filter fun d' => decide (shareKey d' = shareKey d)) = [] := by
          rw [List.filter_eq_nil_iff]
          intro d' hd'
          simp only [decide_eq_true_eq]
          intro heq
          have hany : shareKey d ∈ (groupShares l).map groupKey :=
            (key_complete_groupShares (shareKey d) l).mpr ⟨d', hd', heq⟩
          rcases List.mem_map.mp hany with ⟨g0, hg0, hkg⟩
          exact hall g0 hg0 hkg
        rw [show (⟨d.targetType, d.targetId, 1, d.clickCount⟩ : TrendGroup).shareCount
            = 1 from rfl,
          show (⟨d.targetType, d.targetId, 1, d.clickCount⟩ : TrendGroup).totalClicks
            = d.clickCount from rfl, hkey,
          List.filter_cons_of_pos (by simp), hfl]
        simp
      · obtain ⟨hc, hs⟩ := groupShares_counts l g hmem
        rw [List.filter_cons_of_neg (by
          simp only [decide_eq_true_eq]
          intro h
          exact hne h.symm)]
        exact ⟨hc, hs⟩

/-- In a Pairwise-ordered list, every kept element (the take) is related
to every dropped element (the drop). -/
theorem take_pairwise_drop {α : Type} {R : α → α → Prop} (l : List α) (n : Nat)
    (h : l.Pairwise R) : ∀ a ∈ l.take n, ∀ b ∈ l.drop n, R a b := by
  rw [← List.take_append_drop n l] at h
  exact (List.pairwise_append.mp h).2.2

/-- C9: `getTrendingShares` considers exactly the shares created within
the trailing window (every stored share is public, as `createShare`
makes them), groups them by distinct (targetType, targetId), gives
every bucket the exact share count and click sum of its target with
score `2 x shareCount + totalClicks`, and returns at most `limit`
buckets in descending score order; any windowed target that is missing
from the result was cut by the limit and scores no higher than every
returned bucket. -/
theorem getTrendingShares_spec (shares : List ShareDoc) (now timeframe : Int)
    (limit : Nat) (hpub : ∀ d ∈ shares, d.isPublic = true) :
    (shares.filter (trendingMatch now timeframe none)
      = shares.filter fun d => decide (now - timeframe ≤ d.createdAt)) ∧
    (∀ g ∈ getTrendingShares shares now timeframe limit none,
      (∃ d ∈ shares, decide (now - timeframe ≤ d.createdAt) = true ∧
        shareKey d = groupKey g) ∧
      g.shareCount = ((shares.filter fun d => decide (now - timeframe ≤ d.createdAt)).filter
          fun d => decide (shareKey d = groupKey g)).length ∧
      g.totalClicks = (((shares.filter fun d => decide (now - timeframe ≤ d.createdAt)).filter
          fun d => decide (shareKey d = groupKey g)).map (·.clickCount)).sum ∧
      trendingScore g = 2 * g.shareCount + g.totalClicks) ∧
    (getTrendingShares shares now timeframe limit none).Pairwise
      (fun g1 g2 => trendingScore g2 ≤ trendingScore g1) ∧
    (getTrendingShares shares now timeframe limit none).length ≤ limit ∧
    (∀ d ∈ shares, decide (now - timeframe ≤ d.createdAt) = true →
      ∃ g, groupKey g = shareKey d ∧
        (g ∈ getTrendingShares shares now timeframe limit none ∨
          ((getTrendingShares shares now timeframe limit none).length = limit ∧
           ∀ g2 ∈ getTrendingShares shares now timeframe limit none,
             trendingScore g ≤ trendingScore g2))) := by
  have hfil : shares.filter (trendingMatch now timeframe none)
      = shares.filter fun d => decide (now - timeframe ≤ d.createdAt) := by
    apply List.filter_congr
    intro d hd
    simp [trendingMatch, hpub d hd]
  have hres : getTrendingShares shares now timeframe limit none
      = (sortDescBy trendingScore (groupShares
          (shares.filter fun d => decide (now - timeframe ≤ d.createdAt)))).take limit := by
    rw [getTrendingShares, hfil]
  refine ⟨hfil, ?_, ?_, ?_, ?_⟩
  · intro g hg
    rw [hres] at hg
    have hg2 : g ∈ groupShares
        (shares.filter fun d => decide (now - timeframe ≤ d.createdAt)) :=
      mem_sortDescBy.mp (List.take_subset _ _ hg)
    obtain ⟨hc, hs⟩ := groupShares_counts _ g hg2
    have hkey : groupKey g ∈ (groupShares
        (shares.filter fun d => decide (now - timeframe ≤ d.createdAt))).map groupKey :=
      List.mem_map_of_mem groupKey hg2
    obtain ⟨d, hd, hdk⟩ := (key_complete_groupShares _ _).mp hkey
    obtain ⟨hdmem, hdwin⟩ := List.mem_filter.mp hd
    exact ⟨⟨d, hdmem, hdwin, hdk⟩, hc, hs, rfl⟩
  · rw [hres]
    exact List.Pairwise.sublist (List.take_sublist _ _) (sorted_sortDescBy _)
  · rw [hres]
    exact List.length_take_le _ _
  · intro d hd hwin
    have hdW : d ∈ shares.filter fun d => decide (now - timeframe ≤ d.createdAt) :=
      List.mem_filter.mpr ⟨hd, hwin⟩
    have hkey : shareKey d ∈ (groupShares
        (shares.filter fun d => decide (now - timeframe ≤ d.createdAt))).map groupKey :=
      (key_complete_groupShares _ _).mpr ⟨d, hdW, rfl⟩
    obtain ⟨g, hgmem, hgk⟩ := List.mem_map.mp hkey
    have hgsort : g ∈ sortDescBy trendingScore (groupShares
        (shares.filter fun d => decide (now - timeframe ≤ d.createdAt))) :=
      mem_sortDescBy.mpr hgmem
    refine ⟨g, hgk, ?_⟩
    have hsplit := List.take_append_drop limit (sortDescBy trendingScore (groupShares
        (shares.filter fun d => decide (now - timeframe ≤ d.createdAt))))
    rw [← hsplit] at hgsort
    rcases List.mem_append.mp hgsort with hgtake | hgdrop
    · rw [hres]
      exact Or.inl hgtake
    · refine Or.inr ⟨?_, ?_⟩
      · rw [hres, List.length_take]
        have hne : (sortDescBy trendingScore (groupShares
            (shares.filter fun d => decide (now - timeframe ≤ d.createdAt)))).drop limit
            ≠ [] := List.ne_nil_of_mem hgdrop
        have hlt : limit < (sortDescBy trendingScore (groupShares
            (shares.filter fun d => decide (now - timeframe ≤ d.createdAt)))).length := by
          by_contra hle
          exact hne (List.drop_eq_nil_of_le (by omega))
        omega
      · intro g2 hg2
        rw [hres] at hg2
        exact take_pairwise_drop _ limit (sorted_sortDescBy _) g2 hg2 g hgdrop

/-- Witness for C9 at concrete inputs: two shares of recommendation 5
and one high-click share of book 9 within the window, one stale share
outside it. -/
theorem getTrendingShares_spec_witness :
    (∀ g ∈ getTrendingShares
        [⟨1, .recommendation, 5, .internal, none, none, 3, true, 0⟩,
         ⟨2, .recommendation, 5, .internal, none, none, 0, true, 0⟩,
         ⟨3, .book, 9, .internal, none, none, 9, true, 0⟩,
         ⟨4, .book, 9, .internal, none, none, 0, true, -20⟩] 0 7 10 none,
      trendingScore g = 2 * g.shareCount + g.totalClicks) ∧
    (getTrendingShares
        [⟨1, .recommendation, 5, .internal, none, none, 3, true, 0⟩,
         ⟨2, .recommendation, 5, .internal, none, none, 0, true, 0⟩,
         ⟨3, .book, 9, .internal, none, none, 9, true, 0⟩,
         ⟨4, .book, 9, .internal, none, none, 0, true, -20⟩] 0 7 10 none).Pairwise
      (fun g1 g2 => trendingScore g2 ≤ trendingScore g1) := by
  obtain ⟨-, h2, h3, -, -⟩ := getTrendingShares_spec
    [⟨1, .recommendation, 5, .internal, none, none, 3, true, 0⟩,
     ⟨2, .recommendation, 5, .internal, none, none, 0, true, 0⟩,
     ⟨3, .book, 9, .internal, none, none, 9, true, 0⟩,
     ⟨4, .book, 9, .internal, none, none, 0, true, -20⟩] 0 7 10 (by decide)
  exact ⟨fun g hg => (h2 g hg).2.2.2, h3⟩

/-! ### Lemmas for the counter-maintenance invariant -/

/-- `trimChars` written through Mathlib's `rdropWhile`. -/
theorem trimChars_eq_rdropWhile (l : List Char) :
    trimChars l = List.rdropWhile isWhitespaceChar (l.dropWhile isWhitespaceChar) := rfl

/--`String.prototype.trim` is idempotent. -/
theorem trimChars_idem (l : List Char) : trimChars (trimChars l) = trimChars l := by
  have h1 : (trimChars l).dropWhile isWhitespaceChar = trimChars l := by
    cases hT : trimChars l with
    | nil => rfl
    | cons a t' =>
        rw [List.dropWhile_cons]
        obtain ⟨t, ht⟩ := List.rdropWhile_prefix isWhitespaceChar
          (l.dropWhile isWhitespaceChar)
        rw [show List.rdropWhile isWhitespaceChar (l.dropWhile isWhitespaceChar)
            = trimChars l from rfl, hT] at ht
        have hne : l.dropWhile isWhitespaceChar ≠ [] := by
          rw [← ht]
          simp
        have hhead := List.head_dropWhile_not isWhitespaceChar l hne
        have hh1 : (l.dropWhile isWhitespaceChar).head? = some a := by
          rw [← ht]
          rfl
        have hh2 : (l.dropWhile isWhitespaceChar).head? =
            some ((l.dropWhile isWhitespaceChar).head hne) := List.head?_eq_head hne
        rw [hh1] at hh2
        injection hh2 with hh3
        rw [← hh3] at hhead
        simp [hhead]
  rw [trimChars_eq_rdropWhile (trimChars l), h1, trimChars_eq_rdropWhile l]
  exact List.rdropWhile_idempotent _ _

/-- The comment pre-save middleware yields a normalized document. -/
theorem commentPreSave_normalized (c : CommentDoc) :
    (commentPreSave c).text = trimChars (commentPreSave c).text ∧
    (containsBadWord (commentPreSave c).text = true →
      (commentPreSave c).isModerated = true) := by
  constructor
  · show trimChars c.text = trimChars (trimChars c.text)
    exact (trimChars_idem c.text).symm
  · intro hb
    have hb' : containsBadWord (trimChars c.text) = true := hb
    simp [commentPreSave, hb']

/-- Erasing only elements that fail the filter leaves the filter
unchanged (membership-scoped). -/
theorem filter_eraseP_of_not {α : Type} (p q : α → Bool) :
    ∀ (l : List α), (∀ x ∈ l, p x = true → q x = false) →
      (l.eraseP p).filter q = l.filter q
  | [], _ => rfl
  | a :: l, h => by
      by_cases ha : p a
      · rw [List.eraseP_cons_of_pos ha,
          List.filter_cons_of_neg (by simp [h a (List.mem_cons_self a l) ha])]
      · rw [List.eraseP_cons_of_neg ha, List.filter_cons, List.filter_cons,
          filter_eraseP_of_not p q l fun x hx => h x (List.mem_cons_of_mem a hx)]

/-- Rewriting likeCounts inside the comment documents changes no
public-comment count. -/
theorem countPub_map_setLikeCount (l : List CommentDoc) (tid n : Nat)
    (tt' : TargetType) (i : Nat) :
    ((l.map fun c => if c.id = tid then { c with likeCount := n } else c).filter fun c =>
      decide (c.targetType = tt' ∧ c.targetId = i) && c.isPublic && !c.isModerated).length
      = (l.filter fun c =>
      decide (c.targetType = tt' ∧ c.targetId = i) && c.isPublic && !c.isModerated).length := by
  rw [← List.countP_eq_length_filter, ← List.countP_eq_length_filter, List.countP_map]
  refine List.countP_congr ?_
  intro x _
  by_cases hid : x.id = tid <;> simp [Function.comp, hid]

/-- Rewriting likeCounts preserves the id sequence. -/
theorem ids_map_setLikeCount (l : List CommentDoc) (tid n : Nat) :
    ((l.map fun c => if c.id = tid then { c with likeCount := n } else c).map (·.id))
      = l.map (·.id) := by
  rw [List.map_map]
  apply List.map_congr_left
  intro c _
  by_cases hid : c.id = tid <;> simp [Function.comp, hid]

/-- Rewriting likeCounts keeps the comment ids duplicate-free. -/
theorem nodup_ids_map_setLikeCount (l : List CommentDoc) (tid n : Nat)
    (h : (l.map (·.id)).Nodup) :
    ((l.map fun c => if c.id = tid then { c with likeCount := n } else c).map
      (·.id)).Nodup := by
  rw [ids_map_setLikeCount]
  exact h

/-- Component-wise equality of counter records. -/
theorem Counters.ext3 {a b : Counters} (h1 : a.likeCount = b.likeCount)
    (h2 : a.commentCount = b.commentCount) (h3 : a.shareCount = b.shareCount) :
    a = b := by
  cases a
  cases b
  simp_all

/-- The like hook restores the invariant after the like collection
changed at one key only (covers both the insert and the delete of
`toggleLike`). -/
theorem inv_like_generic (s : St) (tt : TargetType) (tid : Nat) (L : List LikeDoc)
    (htt : tt = .recommendation ∨ tt = .comment ∨ tt = .review)
    (h : Inv s)
    (hcount : ∀ (tt' : TargetType) (i : Nat), ¬(tt' = tt ∧ i = tid) →
      (L.filter fun l => decide (l.targetType = tt' ∧ l.targetId = i)).length
        = countLikes s tt' i)
    (hbook : ∀ l ∈ L, l.targetType ≠ .book) :
    Inv (updateTargetLikeCount { s with likes := L } tt tid) := by
  have hcL : ∀ (tt' : TargetType) (i : Nat), ¬(tt' = tt ∧ i = tid) →
      countLikes { s with likes := L } tt' i = countLikes s tt' i := hcount
  rcases htt with rfl | rfl | rfl
  · refine ⟨?_, ?_, ?_, ?_, ?_, ?_, ?_, ?_, ?_⟩
    · intro i
      simp only [updateTargetLikeCount, setTable]
      by_cases hi : i = tid
      · subst hi
        rw [if_pos rfl, h.recsOk i]
        rfl
      · rw [if_neg hi, h.recsOk i]
        exact Counters.ext3 (hcL .recommendation i (by simp [hi])).symm rfl rfl
    · intro i
      show s.reviews i = _
      rw [h.reviewsOk i]
      exact Counters.ext3 (hcL .review i (by simp)).symm rfl rfl
    · intro i
      show s.books i = _
      rw [h.booksOk i]
      exact Counters.ext3 (hcL .book i (by simp)).symm rfl rfl
    · intro c hc
      rw [h.commentsLikeOk c hc]
      exact (hcL .comment c.id (by simp)).symm
    · exact h.idsNodup
    · exact h.normOk
    · exact h.replyOk
    · exact h.commentsTTOk
    · exact hbook
  · refine ⟨?_, ?_, ?_, ?_, ?_, ?_, ?_, ?_, ?_⟩
    · intro i
      show s.recs i = _
      rw [h.recsOk i]
      refine Counters.ext3 (hcL .recommendation i (by simp)).symm ?_ rfl
      exact (countPub_map_setLikeCount s.comments tid _ .recommendation i).symm
    · intro i
      show s.reviews i = _
      rw [h.reviewsOk i]
      refine Counters.ext3 (hcL .review i (by simp)).symm ?_ rfl
      exact (countPub_map_setLikeCount s.comments tid _ .review i).symm
    · intro i
      show s.books i = _
      rw [h.booksOk i]
      refine Counters.ext3 (hcL .book i (by simp)).symm ?_ rfl
      exact (countPub_map_setLikeCount s.comments tid _ .book i).symm
    · intro c' hc'
      rcases List.mem_map.mp hc' with ⟨c, hc, rfl⟩
      by_cases hid : c.id = tid
      · rw [if_pos hid]
        show countLikes ({ s with likes := L }) TargetType.comment tid
          = countLikes (updateTargetLikeCount ({ s with likes := L })
              TargetType.comment tid) TargetType.comment c.id
        rw [hid]
        rfl
      · rw [if_neg hid]
        rw [h.commentsLikeOk c hc]
        exact (hcL .comment c.id (by simp [hid])).symm
    · exact nodup_ids_map_setLikeCount s.comments tid _ h.idsNodup
    · intro c' hc'
      rcases List.mem_map.mp hc' with ⟨c, hc, rfl⟩
      by_cases hid : c.id = tid
      · rw [if_pos hid]
        exact h.normOk c hc
      · rw [if_neg hid]
        exact h.normOk c hc
    · intro c' hc'
      rcases List.mem_map.mp hc' with ⟨c, hc, rfl⟩
      by_cases hid : c.id = tid
      · rw [if_pos hid]
        exact h.replyOk c hc
      · rw [if_neg hid]
        exact h.replyOk c hc
    · intro c' hc'
      rcases List.mem_map.mp hc' with ⟨c, hc, rfl⟩
      by_cases hid : c.id = tid
      · rw [if_pos hid]
        exact h.commentsTTOk c hc
      · rw [if_neg hid]
        exact h.commentsTTOk c hc
    · exact hbook
  · refine ⟨?_, ?_, ?_, ?_, ?_, ?_, ?_, ?_, ?_⟩
    · intro i
      show s.recs i = _
      rw [h.recsOk i]
      exact Counters.ext3 (hcL .recommendation i (by simp)).symm rfl rfl
    · intro i
      simp only [updateTargetLikeCount, setTable]
      by_cases hi : i = tid
      · subst hi
        rw [if_pos rfl, h.reviewsOk i]
        rfl
      · rw [if_neg hi, h.reviewsOk i]
        exact Counters.ext3 (hcL .review i (by simp [hi])).symm rfl rfl
    · intro i
      show s.books i = _
      rw [h.booksOk i]
      exact Counters.ext3 (hcL .book i (by simp)).symm rfl rfl
    · intro c hc
      rw [h.commentsLikeOk c hc]
      exact (hcL .comment c.id (by simp)).symm
    · exact h.idsNodup
    · exact h.normOk
    · exact h.replyOk
    · exact h.commentsTTOk
    · exact hbook

/-- A completed `POST /social/like` preserves the invariant. -/
theorem inv_routePostLike (s : St) (u : Nat) (tt : TargetType) (tid : Nat)
    (h : Inv s) : Inv (routePostLike s u tt tid).2 := by
  rw [routePostLike, routePostLikeRaced]
  by_cases htt : tt = .recommendation ∨ tt = .comment ∨ tt = .review
  · rw [if_pos htt]
    by_cases hex : likeExists s u tt tid
    · have htog : toggleLikeRaced s s u tt tid = .ok
          (updateTargetLikeCount
            ({ s with likes := s.likes.eraseP (likeKeyMatch u tt tid) }) tt tid, false) := by
        rw [toggleLikeRaced, if_pos hex]
      rw [htog]
      refine inv_like_generic s tt tid (s.likes.eraseP (likeKeyMatch u tt tid)) htt h
        ?_ ?_
      · intro tt' i hne
        rw [filter_eraseP_of_not _ _ s.likes ?_]
        · rfl
        · intro x _ hpx
          simp only [likeKeyMatch, decide_eq_true_eq] at hpx
          simp only [decide_eq_false_iff_not]
          rintro ⟨h1, h2⟩
          exact hne ⟨by rw [← h1, hpx.2.1], by rw [← h2, hpx.2.2]⟩
      · intro l hl
        exact h.likesTTOk l ((List.eraseP_sublist s.likes).subset hl)
    · have htog : toggleLikeRaced s s u tt tid = .ok
          (updateTargetLikeCount
            ({ s with likes := ⟨u, tt, tid⟩ :: s.likes }) tt tid, true) := by
        rw [toggleLikeRaced, if_neg (by simpa using hex), if_neg (by simpa using hex)]
      rw [htog]
      refine inv_like_generic s tt tid (⟨u, tt, tid⟩ :: s.likes) htt h ?_ ?_
      · intro tt' i hne
        rw [List.filter_cons_of_neg ?_]
        · rfl
        · simp only [decide_eq_true_eq]
          rintro ⟨h1, h2⟩
          exact hne ⟨h1.symm, h2.symm⟩
      · intro l hl
        rcases List.mem_cons.mp hl with rfl | hl
        · rcases htt with rfl | rfl | rfl <;> simp
        · exact h.likesTTOk l hl
  · rw [if_neg htt]
    exact h

/-- Recomputing a target's comment count on a store already satisfying
the invariant rewrites the cached value with itself. -/
theorem inv_updateTargetCommentCount (s : St) (tt : TargetType) (tid : Nat)
    (h : Inv s) : Inv (updateTargetCommentCount s tt tid) := by
  cases tt with
  | recommendation =>
      refine ⟨?_, h.reviewsOk, h.booksOk, h.commentsLikeOk, h.idsNodup, h.normOk,
        h.replyOk, h.commentsTTOk, h.likesTTOk⟩
      intro i
      simp only [updateTargetCommentCount, setTable]
      by_cases hi : i = tid
      · subst hi
        rw [if_pos rfl, h.recsOk i]
        rfl
      · rw [if_neg hi, h.recsOk i]
        rfl
  | review =>
      refine ⟨h.recsOk, ?_, h.booksOk, h.commentsLikeOk, h.idsNodup, h.normOk,
        h.replyOk, h.commentsTTOk, h.likesTTOk⟩
      intro i
      simp only [updateTargetCommentCount, setTable]
      by_cases hi : i = tid
      · subst hi
        rw [if_pos rfl, h.reviewsOk i]
        rfl
      · rw [if_neg hi, h.reviewsOk i]
        rfl
  | comment => exact h
  | book => exact h

/-- Rewriting one comment's replyCount (through the pre-save pipeline,
with any update that keeps it nonnegative) preserves the invariant. -/
theorem inv_map_replyCount (s : St) (pid : Nat) (g : Int → Int)
    (hg : ∀ r : Int, 0 ≤ r → 0 ≤ g r) (h : Inv s) :
    Inv { s with comments := s.comments.map fun c' => if c'.id = pid then
      commentPreSave { c' with replyCount := g c'.replyCount } else c' } := by
  have hdec : ∀ c' ∈ s.comments, (if c'.id = pid then
      commentPreSave { c' with replyCount := g c'.replyCount } else c')
      = { c' with replyCount :=
          if c'.id = pid then g c'.replyCount else c'.replyCount } := by
    intro c' hc'
    obtain ⟨hn, hm⟩ := h.normOk c' hc'
    by_cases hid : c'.id = pid
    · rw [if_pos hid, if_pos hid, commentPreSave_replyCount_update c' _ hn hm]
    · rw [if_neg hid, if_neg hid]
  have hmapeq : (s.comments.map fun c' => if c'.id = pid then
      commentPreSave { c' with replyCount := g c'.replyCount } else c')
      = s.comments.map fun c' =>
          { c' with replyCount := if c'.id = pid then g c'.replyCount else c'.replyCount } :=
    List.map_congr_left hdec
  rw [hmapeq]
  have hcp : ∀ (tt' : TargetType) (i : Nat),
      ((s.comments.map fun c' =>
          ({ c' with replyCount := if c'.id = pid then g c'.replyCount else c'.replyCount } : CommentDoc)).filter
        fun c => decide (c.targetType = tt' ∧ c.targetId = i) && c.isPublic
          && !c.isModerated).length
      = countPubComments s tt' i := by
    intro tt' i
    rw [show countPubComments s tt' i = (s.comments.filter
        fun c => decide (c.targetType = tt' ∧ c.targetId = i) && c.isPublic
          && !c.isModerated).length from rfl,
      ← List.countP_eq_length_filter, ← List.countP_eq_length_filter, List.countP_map]
    exact List.countP_congr fun x _ => Iff.rfl
  refine ⟨?_, ?_, ?_, ?_, ?_, ?_, ?_, ?_, ?_⟩
  · intro i
    show s.recs i = _
    rw [h.recsOk i]
    exact Counters.ext3 rfl (hcp .recommendation i).symm rfl
  · intro i
    show s.reviews i = _
    rw [h.reviewsOk i]
    exact Counters.ext3 rfl (hcp .review i).symm rfl
  · intro i
    show s.books i = _
    rw [h.booksOk i]
    exact Counters.ext3 rfl (hcp .book i).symm rfl
  · intro c' hc'
    rcases List.mem_map.mp hc' with ⟨c, hc, rfl⟩
    exact h.commentsLikeOk c hc
  · rw [List.map_map]
    exact h.idsNodup
  · intro c' hc'
    rcases List.mem_map.mp hc' with ⟨c, hc, rfl⟩
    exact h.normOk c hc
  · intro c' hc'
    rcases List.mem_map.mp hc' with ⟨c, hc, rfl⟩
    show (0 : Int) ≤ if c.id = pid then g c.replyCount else c.replyCount
    by_cases hid : c.id = pid
    · rw [if_pos hid]
      exact hg _ (h.replyOk c hc)
    · rw [if_neg hid]
      exact h.replyOk c hc
  · intro c' hc'
    rcases List.mem_map.mp hc' with ⟨c, hc, rfl⟩
    exact h.commentsTTOk c hc
  · exact h.likesTTOk

/-- The comment hook restores the invariant after the comment
collection changed at one key only (covers the insert of a comment or
reply and the delete of a comment). -/
theorem inv_comment_generic (s : St) (tt : TargetType) (tid : Nat)
    (C : List CommentDoc)
    (htt : tt = .recommendation ∨ tt = .review)
    (h : Inv s)
    (hcount : ∀ (tt' : TargetType) (i : Nat), ¬(tt' = tt ∧ i = tid) →
      (C.filter fun c => decide (c.targetType = tt' ∧ c.targetId = i) && c.isPublic
        && !c.isModerated).length = countPubComments s tt' i)
    (hlike : ∀ c ∈ C, c.likeCount = countLikes s .comment c.id)
    (hnodup : (C.map (·.id)).Nodup)
    (hnorm : ∀ c ∈ C, c.text = trimChars c.text ∧
      (containsBadWord c.text = true → c.isModerated = true))
    (hreply : ∀ c ∈ C, 0 ≤ c.replyCount)
    (hctt : ∀ c ∈ C, c.targetType = .recommendation ∨ c.targetType = .review) :
    Inv (updateTargetCommentCount { s with comments := C } tt tid) := by
  have hcC : ∀ (tt' : TargetType) (i : Nat), ¬(tt' = tt ∧ i = tid) →
      countPubComments { s with comments := C } tt' i = countPubComments s tt' i :=
    hcount
  rcases htt with rfl | rfl
  · refine ⟨?_, ?_, ?_, ?_, ?_, ?_, ?_, ?_, ?_⟩
    · intro i
      simp only [updateTargetCommentCount, setTable]
      by_cases hi : i = tid
      · subst hi
        rw [if_pos rfl, h.recsOk i]
        rfl
      · rw [if_neg hi, h.recsOk i]
        exact Counters.ext3 rfl (hcC .recommendation i (by simp [hi])).symm rfl
    · intro i
      show s.reviews i = _
      rw [h.reviewsOk i]
      exact Counters.ext3 rfl (hcC .review i (by simp)).symm rfl
    · intro i
      show s.books i = _
      rw [h.booksOk i]
      exact Counters.ext3 rfl (hcC .book i (by simp)).symm rfl
    · exact hlike
    · exact hnodup
    · exact hnorm
    · exact hreply
    · exact hctt
    · exact h.likesTTOk
  · refine ⟨?_, ?_, ?_, ?_, ?_, ?_, ?_, ?_, ?_⟩
    · intro i
      show s.recs i = _
      rw [h.recsOk i]
      exact Counters.ext3 rfl (hcC .recommendation i (by simp)).symm rfl
    · intro i
      simp only [updateTargetCommentCount, setTable]
      by_cases hi : i = tid
      · subst hi
        rw [if_pos rfl, h.reviewsOk i]
        rfl
      · rw [if_neg hi, h.reviewsOk i]
        exact Counters.ext3 rfl (hcC .review i (by simp [hi])).symm rfl
    · intro i
      show s.books i = _
      rw [h.booksOk i]
      exact Counters.ext3 rfl (hcC .book i (by simp)).symm rfl
    · exact hlike
    · exact hnodup
    · exact hnorm
    · exact hreply
    · exact hctt
    · exact h.likesTTOk

/-- Saving a fresh comment document (pre-save middleware, insert,
post-save recount) preserves the invariant. -/
theorem inv_saveNewComment (s : St) (c0 : CommentDoc) (h : Inv s)
    (htt : c0.targetType = .recommendation ∨ c0.targetType = .review)
    (hid : ∀ x ∈ s.comments, x.id ≠ c0.id)
    (hlike0 : ∀ l ∈ s.likes, ¬(l.targetType = .comment ∧ l.targetId = c0.id))
    (hlc : c0.likeCount = 0) (hrc : 0 ≤ c0.replyCount) :
    Inv (saveNewComment s c0) := by
  show Inv (updateTargetCommentCount
    { s with comments := commentPreSave c0 :: s.comments }
    (commentPreSave c0).targetType (commentPreSave c0).targetId)
  refine inv_comment_generic s (commentPreSave c0).targetType (commentPreSave c0).targetId
    (commentPreSave c0 :: s.comments) htt h ?_ ?_ ?_ ?_ ?_ ?_
  · intro tt' i hne
    rw [List.filter_cons_of_neg ?_]
    · rfl
    · simp only [Bool.and_eq_true, decide_eq_true_eq]
      rintro ⟨⟨⟨e1, e2⟩, _⟩, _⟩
      exact hne ⟨e1.symm, e2.symm⟩
  · intro c hc
    rcases List.mem_cons.mp hc with rfl | hc
    · show c0.likeCount = countLikes s TargetType.comment c0.id
      have hz : countLikes s TargetType.comment c0.id = 0 := by
        rw [show countLikes s TargetType.comment c0.id = (s.likes.filter fun l =>
            decide (l.targetType = TargetType.comment ∧ l.targetId = c0.id)).length from rfl,
          List.length_eq_zero, List.filter_eq_nil_iff]
        intro l hl
        simp only [decide_eq_true_eq]
        exact hlike0 l hl
      rw [hlc, hz]
    · exact h.commentsLikeOk c hc
  · rw [List.map_cons, List.nodup_cons]
    refine ⟨?_, h.idsNodup⟩
    intro hmem
    rcases List.mem_map.mp hmem with ⟨x, hx, hxe⟩
    exact hid x hx hxe
  · intro c hc
    rcases List.mem_cons.mp hc with rfl | hc
    · exact commentPreSave_normalized c0
    · exact h.normOk c hc
  · intro c hc
    rcases List.mem_cons.mp hc with rfl | hc
    · show (0 : Int) ≤ c0.replyCount
      exact hrc
    · exact h.replyOk c hc
  · intro c hc
    rcases List.mem_cons.mp hc with rfl | hc
    · show c0.targetType = TargetType.recommendation ∨ c0.targetType = TargetType.review
      exact htt
    · exact h.commentsTTOk c hc

/-- A completed `POST /social/comment` preserves the invariant. -/
theorem inv_routePostComment (s : St) (newId u : Nat) (tt : TargetType) (tid : Nat)
    (text : List Char) (parent? : Option Nat) (hfresh : freshCommentId s newId)
    (h : Inv s) : Inv (routePostComment s newId u tt tid text parent?).2 := by
  simp only [routePostComment]
  by_cases hlen : 1 ≤ (trimChars text).length ∧ (trimChars text).length ≤ 1000
  · rw [if_pos hlen]
    by_cases httc : tt = TargetType.recommendation ∨ tt = TargetType.review
    · rw [if_pos httc]
      refine inv_saveNewComment s ⟨newId, u, tt, tid, trimChars text, parent?, 0, 0, true, false⟩
        h httc ?_ ?_ rfl (le_refl (0 : Int))
      · intro x hx
        exact hfresh.1 x hx
      · intro l hl
        exact hfresh.2 l hl
    · rw [if_neg httc]
      exact h
  · rw [if_neg hlen]
    exact h

/-- A completed `addReply` (reply insert, parent replyCount bump,
recounts) preserves the invariant. -/
theorem inv_execAddReply (s : St) (newId pid u : Nat) (text : List Char)
    (hfresh : freshCommentId s newId) (h : Inv s) :
    Inv (execAddReply s newId pid u text) := by
  cases hfp : s.comments.find? fun c => c.id == pid with
  | none =>
      have hrun : execAddReply s newId pid u text = s := by
        simp only [execAddReply, hfp]
      rw [hrun]
      exact h
  | some p =>
      have hp : p ∈ s.comments := List.mem_of_find?_eq_some hfp
      have hrun : execAddReply s newId pid u text
          = updateTargetCommentCount
              { saveNewComment s ⟨newId, u, p.targetType, p.targetId, text,
                  some p.id, 0, 0, true, false⟩ with
                comments := (saveNewComment s ⟨newId, u, p.targetType, p.targetId, text,
                  some p.id, 0, 0, true, false⟩).comments.map fun c =>
                    if c.id = p.id then
                      commentPreSave ({ c with replyCount := c.replyCount + 1 })
                    else c }
              p.targetType p.targetId := by
        simp only [execAddReply, hfp]
      rw [hrun]
      have h1 : Inv (saveNewComment s ⟨newId, u, p.targetType, p.targetId, text,
          some p.id, 0, 0, true, false⟩) := by
        refine inv_saveNewComment s _ h (h.commentsTTOk p hp) ?_ ?_ rfl (le_refl (0 : Int))
        · intro x hx
          exact hfresh.1 x hx
        · intro l hl
          exact hfresh.2 l hl
      exact inv_updateTargetCommentCount _ p.targetType p.targetId
        (inv_map_replyCount _ p.id (fun r => r + 1) (fun r hr => Int.le_add_one hr) h1)

/-- A completed `DELETE /social/comments/:commentId` (erase, recount,
clamped parent decrement, recount) preserves the invariant. -/
theorem inv_execDeleteComment (s : St) (cid req : Nat) (h : Inv s) :
    Inv (execDeleteComment s cid req).2 := by
  cases hfind : s.comments.find? fun x => x.id == cid with
  | none =>
      have hrun : execDeleteComment s cid req = (.notFound, s) := by
        simp only [execDeleteComment, hfind]
      rw [hrun]
      exact h
  | some c =>
      by_cases heq : c.userId = req
      · have hc : c ∈ s.comments := List.mem_of_find?_eq_some hfind
        have hcid : c.id = cid := by simpa using List.find?_some hfind
        have h2 : Inv (updateTargetCommentCount
            { s with comments := s.comments.eraseP fun c' => c'.id == cid }
            c.targetType c.targetId) := by
          refine inv_comment_generic s c.targetType c.targetId _
            (h.commentsTTOk c hc) h ?_ ?_ ?_ ?_ ?_ ?_
          · intro tt' i hne
            have hfe := filter_eraseP_of_not (fun c' => c'.id == cid)
              (fun x => decide (x.targetType = tt' ∧ x.targetId = i) && x.isPublic
                && !x.isModerated) s.comments ?_
            · rw [hfe]
              rfl
            · intro x hx hpx
              have hxid : x.id = cid := by simpa using hpx
              have hxc : x = c :=
                List.inj_on_of_nodup_map h.idsNodup hx hc (by rw [hxid, hcid])
              subst hxc
              have hd : decide (x.targetType = tt' ∧ x.targetId = i) = false := by
                rw [decide_eq_false_iff_not]
                rintro ⟨e1, e2⟩
                exact hne ⟨e1.symm, e2.symm⟩
              simp [hd]
          · intro x hx
            exact h.commentsLikeOk x ((List.eraseP_sublist _).subset hx)
          · exact h.idsNodup.sublist ((List.eraseP_sublist s.comments).map fun x => x.id)
          · intro x hx
            exact h.normOk x ((List.eraseP_sublist _).subset hx)
          · intro x hx
            exact h.replyOk x ((List.eraseP_sublist _).subset hx)
          · intro x hx
            exact h.commentsTTOk x ((List.eraseP_sublist _).subset hx)
        cases hpar : c.parentCommentId with
        | none =>
            have hrun : execDeleteComment s cid req = (.ok, updateTargetCommentCount
                { s with comments := s.comments.eraseP fun c' => c'.id == cid }
                c.targetType c.targetId) := by
              simp only [execDeleteComment, hfind, if_pos heq, hpar]
            rw [hrun]
            exact h2
        | some pid =>
            cases hfp : ((updateTargetCommentCount
                { s with comments := s.comments.eraseP fun c' => c'.id == cid }
                c.targetType c.targetId).comments.find? fun c' => c'.id == pid) with
            | none =>
                have hrun : execDeleteComment s cid req = (.ok, updateTargetCommentCount
                    { s with comments := s.comments.eraseP fun c' => c'.id == cid }
                    c.targetType c.targetId) := by
                  simp only [execDeleteComment, hfind, if_pos heq, hpar, hfp]
                rw [hrun]
                exact h2
            | some p0 =>
                have hrun : execDeleteComment s cid req = (.ok, updateTargetCommentCount
                    { updateTargetCommentCount
                        { s with comments := s.comments.eraseP fun c' => c'.id == cid }
                        c.targetType c.targetId with
                      comments := (updateTargetCommentCount
                        { s with comments := s.comments.eraseP fun c' => c'.id == cid }
                        c.targetType c.targetId).comments.map fun c' =>
                          if c'.id = pid then
                            commentPreSave ({ c' with replyCount := max 0 (c'.replyCount - 1) })
                          else c' }
                    p0.targetType p0.targetId) := by
                  simp only [execDeleteComment, hfind, if_pos heq, hpar, hfp]
                rw [hrun]
                exact inv_updateTargetCommentCount _ p0.targetType p0.targetId
                  (inv_map_replyCount _ pid (fun r => max 0 (r - 1))
                    (fun r hr => le_max_left 0 (r - 1)) h2)
      · have hrun : execDeleteComment s cid req = (.forbidden, s) := by
          simp only [execDeleteComment, hfind, if_neg heq]
        rw [hrun]
        exact h

/-- `createShare` (insert plus post-save recount) preserves the
invariant for any schema-valid target type. -/
theorem inv_execCreateShare (s : St) (d : ShareDoc) (h : Inv s)
    (htt : d.targetType = .recommendation ∨ d.targetType = .review
      ∨ d.targetType = .book) :
    Inv (execCreateShare s d) := by
  rw [execCreateShare]
  have hcS : ∀ (tt' : TargetType) (i : Nat), ¬(tt' = d.targetType ∧ i = d.targetId) →
      countShares { s with shares := d :: s.shares } tt' i = countShares s tt' i := by
    intro tt' i hne
    show ((d :: s.shares).filter fun x =>
      decide (x.targetType = tt' ∧ x.targetId = i)).length = _
    rw [List.filter_cons_of_neg ?_]
    · rfl
    · simp only [decide_eq_true_eq]
      rintro ⟨e1, e2⟩
      exact hne ⟨e1.symm, e2.symm⟩
  rcases htt with htt | htt | htt
  · rw [htt]
    refine ⟨?_, ?_, ?_, h.commentsLikeOk, h.idsNodup, h.normOk, h.replyOk,
      h.commentsTTOk, h.likesTTOk⟩
    · intro i
      simp only [updateTargetShareCount, setTable]
      by_cases hi : i = d.targetId
      · subst hi
        rw [if_pos rfl, h.recsOk d.targetId]
        rfl
      · rw [if_neg hi, h.recsOk i]
        exact Counters.ext3 rfl rfl
          (hcS .recommendation i fun hco => hi hco.2).symm
    · intro i
      show s.reviews i = _
      rw [h.reviewsOk i]
      exact Counters.ext3 rfl rfl
        (hcS .review i (by rw [htt]; rintro ⟨e, _⟩; cases e)).symm
    · intro i
      show s.books i = _
      rw [h.booksOk i]
      exact Counters.ext3 rfl rfl
        (hcS .book i (by rw [htt]; rintro ⟨e, _⟩; cases e)).symm
  · rw [htt]
    refine ⟨?_, ?_, ?_, h.commentsLikeOk, h.idsNodup, h.normOk, h.replyOk,
      h.commentsTTOk, h.likesTTOk⟩
    · intro i
      show s.recs i = _
      rw [h.recsOk i]
      exact Counters.ext3 rfl rfl
        (hcS .recommendation i (by rw [htt]; rintro ⟨e, _⟩; cases e)).symm
    · intro i
      simp only [updateTargetShareCount, setTable]
      by_cases hi : i = d.targetId
      · subst hi
        rw [if_pos rfl, h.reviewsOk d.targetId]
        rfl
      · rw [if_neg hi, h.reviewsOk i]
        exact Counters.ext3 rfl rfl
          (hcS .review i fun hco => hi hco.2).symm
    · intro i
      show s.books i = _
      rw [h.booksOk i]
      exact Counters.ext3 rfl rfl
        (hcS .book i (by rw [htt]; rintro ⟨e, _⟩; cases e)).symm
  · rw [htt]
    refine ⟨?_, ?_, ?_, h.commentsLikeOk, h.idsNodup, h.normOk, h.replyOk,
      h.commentsTTOk, h.likesTTOk⟩
    · intro i
      show s.recs i = _
      rw [h.recsOk i]
      exact Counters.ext3 rfl rfl
        (hcS .recommendation i (by rw [htt]; rintro ⟨e, _⟩; cases e)).symm
    · intro i
      show s.reviews i = _
      rw [h.reviewsOk i]
      exact Counters.ext3 rfl rfl
        (hcS .review i (by rw [htt]; rintro ⟨e, _⟩; cases e)).symm
    · intro i
      simp only [updateTargetShareCount, setTable]
      by_cases hi : i = d.targetId
      · subst hi
        rw [if_pos rfl, h.booksOk d.targetId]
        rfl
      · rw [if_neg hi, h.booksOk i]
        exact Counters.ext3 rfl rfl
          (hcS .book i fun hco => hi hco.2).symm

/-- A completed `POST /social/share` preserves the invariant. -/
theorem inv_routePostShare (s : St) (u : Nat) (tt : TargetType) (tid : Nat)
    (st? : Option ShareType) (p? m? : Option String) (now : Int)
    (h : Inv s) : Inv (routePostShare s u tt tid st? p? m? now).2 := by
  simp only [routePostShare]
  by_cases hval : validateShareReq p? m? = true
  · rw [if_pos hval]
    by_cases httc : tt = TargetType.recommendation ∨ tt = TargetType.review
        ∨ tt = TargetType.book
    · rw [if_pos httc]
      exact inv_execCreateShare s
        ⟨u, tt, tid, st?.getD ShareType.internal, p?, m?, 0, true, now⟩ h httc
    · rw [if_neg httc]
      exact h
  · rw [if_neg hval]
    exact h

/-- The empty initial store satisfies the invariant. -/
theorem inv_init : Inv St.init := by
  refine ⟨?_, ?_, ?_, ?_, ?_, ?_, ?_, ?_, ?_⟩ <;>
    simp [St.init, countLikes, countPubComments, countShares]

/-- Every store reachable by a sequence of completed operations
satisfies the invariant. -/
theorem inv_reachable {s : St} (h : Reachable s) : Inv s := by
  induction h with
  | init => exact inv_init
  | step hr hst ih =>
      cases hst with
      | like u tt tid => exact inv_routePostLike _ u tt tid ih
      | comment newId u tt tid text parent? hfresh =>
          exact inv_routePostComment _ newId u tt tid text parent? hfresh ih
      | reply newId pid u text hfresh =>
          exact inv_execAddReply _ newId pid u text hfresh ih
      | deleteComment cid req => exact inv_execDeleteComment _ cid req ih
      | share u tt tid st? p? m? now =>
          exact inv_routePostShare _ u tt tid st? p? m? now ih

/-- C1 counterexample: one completed comment insert whose text contains
the denylist word spam stores the comment (still referencing
recommendation 5) but flags it moderated, and the hook's filtered
recount leaves the cached commentCount at 0 while one live Comment
document references the target: the cached counter differs from the
live count of documents referencing the target. -/
theorem counters_counterexample_moderated :
    (let s := (routePostComment St.init 10 1 .recommendation 5
        "this is spam".data none).2
     ((s.comments.filter fun c =>
        decide (c.targetType = TargetType.recommendation ∧ c.targetId = 5)).length = 1) ∧
     cachedCommentCount s .recommendation 5 = 0) := by
  decide

/-- C1 (amended): in every reachable store, each target's cached
counters equal the live counts the recompute queries return: likeCount
and shareCount count all Like/Share documents referencing the target,
while commentCount counts only the public, unmoderated Comment
documents referencing it; comment targets cache the like count on the
comment document itself. -/
theorem counters_match_live_counts (s : St) (h : Reachable s) :
    (∀ i, s.recs i = ⟨countLikes s .recommendation i, countPubComments s .recommendation i,
      countShares s .recommendation i⟩) ∧
    (∀ i, s.reviews i = ⟨countLikes s .review i, countPubComments s .review i,
      countShares s .review i⟩) ∧
    (∀ i, s.books i = ⟨countLikes s .book i, countPubComments s .book i,
      countShares s .book i⟩) ∧
    ∀ c ∈ s.comments, c.likeCount = countLikes s .comment c.id := by
  have hi := inv_reachable h
  exact ⟨hi.recsOk, hi.reviewsOk, hi.booksOk, hi.commentsLikeOk⟩

/-- Witness for the amended C1: after one completed like of
recommendation 5 from the empty store, the target's cached counters
equal the live counts. -/
theorem counters_match_live_counts_witness :
    (routePostLike St.init 1 TargetType.recommendation 5).2.recs 5
      = ⟨countLikes (routePostLike St.init 1 TargetType.recommendation 5).2
           TargetType.recommendation 5,
         countPubComments (routePostLike St.init 1 TargetType.recommendation 5).2
           TargetType.recommendation 5,
         countShares (routePostLike St.init 1 TargetType.recommendation 5).2
           TargetType.recommendation 5⟩ :=
  (counters_match_live_counts (routePostLike St.init 1 TargetType.recommendation 5).2
    (Reachable.step Reachable.init (Step.like St.init 1 TargetType.recommendation 5))).1 5

/-- C10: in every reachable store (any sequence of comment creates,
replies and deletes, with likes and shares interleaved), every stored
comment's replyCount is nonnegative: the delete hook's clamped
decrement keeps the counter from going below zero. -/
theorem replyCount_nonneg (s : St) (h : Reachable s) :
    ∀ c ∈ s.comments, 0 ≤ c.replyCount :=
  (inv_reachable h).replyOk

/-- Witness for C10: the comment stored by one completed comment insert
from the empty store has a nonnegative replyCount. -/
theorem replyCount_nonneg_witness :
    (0 : Int) ≤ (commentPreSave
      ⟨10, 1, .recommendation, 5, "parent".data, none, 0, 0, true, false⟩).replyCount :=
  replyCount_nonneg
    (routePostComment St.init 10 1 TargetType.recommendation 5 "parent".data none).2
    (Reachable.step Reachable.init
      (Step.comment St.init 10 1 TargetType.recommendation 5 "parent".data none
        (by simp [freshCommentId, St.init])))
    (commentPreSave ⟨10, 1, .recommendation, 5, "parent".data, none, 0, 0, true, false⟩)
    (by decide)

end SocialCore
